import Mathlib

/-!
Checkpoint inspect: requirement resolution and network-status rendering.

A shallow embedding of `cmd/inspect.go` (the part of `inspect` that turns the
command-line flags into the list of archive members to extract) and of
`lib/network.go` (`FormatNetworkInfo`), followed by the properties proved
about them.

Conventions of the embedding:

* the package-level flag variables of `cmd/inspect.go` are one record `Flags`,
  passed in and returned, since `inspect` writes to them;
* Go strings are Lean strings, Go slices are lists, `append` is `++`;
* the constants `SpecDumpFile`, `ConfigDumpFile` and `CheckpointDirectory` of
  package `lib` are declared outside the files at hand, so they are the fields
  of a parameter `Metadata`;
* a Go map is the list of its entries, and the order in which one `range`
  statement visits them, which the language leaves open, is a parameter
  `RangeOrder`;
* what `inspect` calls and does not define (`CreateTasks`, `CleanupTasks`, the two
  renderers, `ReadJSONFile`) is a parameter `Collaborators`, and a run of `inspect`
  yields the list of the calls it made and the texts it printed, in order;
* a Go `error` is a `GoError`, nil being `none`; a pointer that may be nil is an
  `Option`.
-/

namespace Checkpoint

/-! ## `path/filepath.Join` (Unix) -/

/-- The pieces of a path between its separators `/`, empty pieces included. -/
def splitSep : List Char → List (List Char)
  | [] => [[]]
  | c :: cs =>
    if c = '/' then [] :: splitSep cs
    else
      match splitSep cs with
      | [] => [[c]]
      | p :: ps => (c :: p) :: ps

/-- The element loop of `filepath.Clean`: `out` is the stack of elements kept so
far (top first), `rooted` says whether the path starts with a separator. Empty
elements and `.` are skipped; `..` removes the element on top of the stack when
there is one that is not itself `..`, is kept when the path is not rooted, and is
dropped at the root. -/
def cleanElems (rooted : Bool) : List (List Char) → List (List Char) → List (List Char)
  | out, [] => out.reverse
  | out, e :: es =>
    if e = [] ∨ e = ['.'] then cleanElems rooted out es
    else if e = ['.', '.'] then
      match out with
      | [] => if rooted then cleanElems rooted [] es else cleanElems rooted [e] es
      | top :: rest =>
        if top = ['.', '.'] then cleanElems rooted (e :: out) es
        else cleanElems rooted rest es
    else cleanElems rooted (e :: out) es

/-- Go's `filepath.Clean` on Unix: the shortest path naming the same file,
`.` for the empty path. -/
def filepathClean (path : String) : String :=
  if path = "" then "."
  else
    let rooted : Bool := path.data.head? = some '/'
    let kept := cleanElems rooted [] (splitSep path.data)
    let body := String.intercalate "/" (kept.map String.mk)
    let out := (if rooted then "/" else "") ++ body
    if out = "" then "." else out

/-- Go's `filepath.Join` on Unix: the elements from the first non-empty one on,
separated by `/`, then cleaned; the empty string when every element is empty. -/
def filepathJoin (elem : List String) : String :=
  match elem.dropWhile (fun e => e == "") with
  | [] => ""
  | rest => filepathClean (String.intercalate "/" rest)

/-! ## Constants of package `lib` -/

/-- The constant `NetworkStatusFile` of `lib/network.go`. -/
def NetworkStatusFile : String := "network.status"

/-- The constants of package `lib` that `inspect` uses and that are declared
outside the files at hand: the names of the two dump members and of the
directory of the checkpoint images inside the archive. -/
structure Metadata where
  SpecDumpFile : String
  ConfigDumpFile : String
  CheckpointDirectory : String
  deriving DecidableEq, Repr

/-! ## The flags of `inspect` -/

/-- The package-level flag variables of `cmd/inspect.go` (lines 14-27), by their
source names; `pID` is a `uint32`, of which only `!= 0` is ever asked. -/
structure Flags where
  stats : Bool
  mounts : Bool
  pID : Nat
  psTree : Bool
  psTreeCmd : Bool
  psTreeEnv : Bool
  files : Bool
  sockets : Bool
  showAll : Bool
  format : String
  showMetdata : Bool
  showNetwork : Bool
  deriving DecidableEq, Repr

/-- Lines 116-125 of `inspect`: what `--all` switches on. -/
def expandShowAll (f : Flags) : Flags :=
  if f.showAll then
    { f with
      stats := true
      mounts := true
      psTreeCmd := true
      psTreeEnv := true
      files := true
      sockets := true
      showMetdata := true
      showNetwork := true }
  else f

/-- The state of `inspect` while it builds its list: the flag variables and the
local slice `requiredFiles`. -/
structure Resolution where
  flags : Flags
  requiredFiles : List String
  deriving DecidableEq, Repr

/-- Lines 127-135: the two base members, then the network status member and the
statistics member when asked for. -/
def stepBase (md : Metadata) (f : Flags) : Resolution :=
  let requiredFiles := [md.SpecDumpFile, md.ConfigDumpFile]
  let requiredFiles :=
    if f.showNetwork then requiredFiles ++ [NetworkStatusFile] else requiredFiles
  let requiredFiles :=
    if f.stats then requiredFiles ++ ["stats-dump"] else requiredFiles
  { flags := f, requiredFiles := requiredFiles }

/-- Lines 137-140: a PID filter switches the process tree on. -/
def stepPID (r : Resolution) : Resolution :=
  if r.flags.pID ≠ 0 then { r with flags := { r.flags with psTree := true } } else r

/-- The arguments of the `append` of lines 147-154: `files.img` and the prefixes
`fs-`, `ids-`, `fdinfo-` under the checkpoint directory. -/
def filesImages (md : Metadata) : List String :=
  [ filepathJoin [md.CheckpointDirectory, "files.img"],
    filepathJoin [md.CheckpointDirectory, "fs-"],
    filepathJoin [md.CheckpointDirectory, "ids-"],
    filepathJoin [md.CheckpointDirectory, "fdinfo-"] ]

/-- The arguments of the `append` of lines 162-168: `files.img` and the prefixes
`ids-`, `fdinfo-` under the checkpoint directory. -/
def socketsImages (md : Metadata) : List String :=
  [ filepathJoin [md.CheckpointDirectory, "files.img"],
    filepathJoin [md.CheckpointDirectory, "ids-"],
    filepathJoin [md.CheckpointDirectory, "fdinfo-"] ]

/-- The arguments of the `append` of lines 174-180: the prefixes `pagemap-`,
`pages-`, `mm-` under the checkpoint directory. -/
def memoryImages (md : Metadata) : List String :=
  [ filepathJoin [md.CheckpointDirectory, "pagemap-"],
    filepathJoin [md.CheckpointDirectory, "pages-"],
    filepathJoin [md.CheckpointDirectory, "mm-"] ]

/-- The arguments of the `append` of lines 184-189: `pstree.img` and the prefix
`core-` under the checkpoint directory. -/
def psTreeImages (md : Metadata) : List String :=
  [ filepathJoin [md.CheckpointDirectory, "pstree.img"],
    filepathJoin [md.CheckpointDirectory, "core-"] ]

/-- Lines 142-155: `--files`. -/
def stepFiles (md : Metadata) (r : Resolution) : Resolution :=
  if r.flags.files then
    { flags := { r.flags with psTree := true }
      requiredFiles := r.requiredFiles ++ filesImages md }
  else r

/-- Lines 157-169: `--sockets`. -/
def stepSockets (md : Metadata) (r : Resolution) : Resolution :=
  if r.flags.sockets then
    { flags := { r.flags with psTree := true }
      requiredFiles := r.requiredFiles ++ socketsImages md }
  else r

/-- Lines 171-181: `--ps-tree-cmd` or `--ps-tree-env`. -/
def stepPsTreeCmdEnv (md : Metadata) (r : Resolution) : Resolution :=
  if r.flags.psTreeCmd || r.flags.psTreeEnv then
    { flags := { r.flags with psTree := true }
      requiredFiles := r.requiredFiles ++ memoryImages md }
  else r

/-- Lines 183-190: the process tree itself. -/
def stepPsTree (md : Metadata) (r : Resolution) : Resolution :=
  if r.flags.psTree then
    { r with requiredFiles := r.requiredFiles ++ psTreeImages md }
  else r

/-- Lines 127-190 of `inspect`, on flags on which `--all` has been expanded. -/
def resolveFrom (md : Metadata) (f : Flags) : Resolution :=
  stepPsTree md (stepPsTreeCmdEnv md (stepSockets md (stepFiles md (stepPID (stepBase md f)))))

/-- Lines 116-190 of `inspect`: the flag variables as `inspect` leaves them and
the slice `requiredFiles` it hands to `CreateTasks`. -/
def inspectResolve (md : Metadata) (f : Flags) : Resolution :=
  resolveFrom md (expandShowAll f)

/-- The values the constants have in the upstream package `lib`. -/
def upstreamMetadata : Metadata :=
  { SpecDumpFile := "spec.dump", ConfigDumpFile := "config.dump", CheckpointDirectory := "checkpoint" }

/-- The selection with every flag off and no PID filter, for a given output format. -/
def emptyFlags (format : String) : Flags :=
  { stats := false, mounts := false, pID := 0, psTree := false, psTreeCmd := false,
    psTreeEnv := false, files := false, sockets := false, showAll := false,
    format := format, showMetdata := false, showNetwork := false }


/-- The flag `psTree` as `inspect` leaves it: set when it was given, or when a PID
filter, `--files`, `--sockets`, `--ps-tree-cmd` or `--ps-tree-env` was. -/
def psTreeStar (f : Flags) : Bool :=
  f.psTree || f.pID != 0 || f.files || f.sockets || f.psTreeCmd || f.psTreeEnv

/-- The list `requiredFiles` written out rule by rule, in the order of the
statements of `inspect`. -/
def requiredOf (md : Metadata) (e : Flags) : List String :=
  [md.SpecDumpFile, md.ConfigDumpFile]
    ++ (if e.showNetwork then [NetworkStatusFile] else [])
    ++ (if e.stats then ["stats-dump"] else [])
    ++ (if e.files then filesImages md else [])
    ++ (if e.sockets then socketsImages md else [])
    ++ (if e.psTreeCmd || e.psTreeEnv then memoryImages md else [])
    ++ (if psTreeStar e then psTreeImages md else [])

/-- The selection in which every boolean flag other than `showAll` is on; the PID
filter, the output format and `showAll` itself are kept. -/
def allOthersOn (f : Flags) : Flags :=
  { f with
    stats := true
    mounts := true
    psTree := true
    psTreeCmd := true
    psTreeEnv := true
    files := true
    sockets := true
    showMetdata := true
    showNetwork := true }

/-- Every name `inspect` can put on its list, each once, in the order of the
statements that add them. -/
def memberNames (md : Metadata) : List String :=
  [md.SpecDumpFile, md.ConfigDumpFile, NetworkStatusFile, "stats-dump"]
    ++ filesImages md ++ memoryImages md ++ psTreeImages md

/-- The flags from which `psTree` follows without being given. -/
def impliesPsTree (f : Flags) : Bool :=
  f.pID != 0 || f.files || f.sockets || f.psTreeCmd || f.psTreeEnv || f.showAll

/-- A sample selection: `--all` with a PID filter, everything else off. -/
def sampleAll : Flags :=
  { emptyFlags "tree" with showAll := true, pID := 7 }

/-- A sample selection: `--files` alone. -/
def sampleFiles : Flags :=
  { emptyFlags "tree" with files := true }

/-- A sample selection: `--files` and `--sockets`. -/
def sampleFilesSockets : Flags :=
  { emptyFlags "json" with files := true, sockets := true }

/-- The list without the entries of the `--sockets` statement. -/
def requiredSansSockets (md : Metadata) (e : Flags) : List String :=
  [md.SpecDumpFile, md.ConfigDumpFile]
    ++ (if e.showNetwork then [NetworkStatusFile] else [])
    ++ (if e.stats then ["stats-dump"] else [])
    ++ (if e.files then filesImages md else [])
    ++ (if e.psTreeCmd || e.psTreeEnv then memoryImages md else [])
    ++ (if psTreeStar e then psTreeImages md else [])

/-! ## The implication rules of the specification -/

/-- One row of the table of implication rules: the test on the flags that makes
the rule fire, the flags it then forces on, the members it then adds. -/
structure Rule where
  trigger : Flags → Bool
  implied : Flags → Flags
  members : List String

/-- The column "implies `psTree`" of the table. -/
def forcePsTree (f : Flags) : Flags :=
  { f with psTree := true }

/-- The table of implication rules of the specification, row by row, the image
names and prefixes taken under the checkpoint directory as `inspect` takes them. -/
def specRules (md : Metadata) : List Rule :=
  [ { trigger := fun f => f.showNetwork, implied := id, members := [NetworkStatusFile] },
    { trigger := fun f => f.stats, implied := id, members := ["stats-dump"] },
    { trigger := fun f => f.pID != 0, implied := forcePsTree, members := [] },
    { trigger := fun f => f.files, implied := forcePsTree, members := filesImages md },
    { trigger := fun f => f.sockets, implied := forcePsTree, members := socketsImages md },
    { trigger := fun f => f.psTreeCmd || f.psTreeEnv, implied := forcePsTree,
      members := memoryImages md },
    { trigger := fun f => f.psTree, implied := id, members := psTreeImages md } ]

/-- Adding one member to a collection of distinct members. -/
def addMember (l : List String) (x : String) : List String :=
  if x ∈ l then l else l ++ [x]

/-- Adding several members, one after the other. -/
def addMembers (l : List String) (xs : List String) : List String :=
  xs.foldl addMember l

/-- What a rule that fires does to a state. -/
def specFire (r : Rule) (st : Resolution) : Resolution :=
  { flags := r.implied st.flags, requiredFiles := addMembers st.requiredFiles r.members }

/-- One rule applied to a state: nothing happens unless its trigger holds. -/
def specApplyRule (r : Rule) (st : Resolution) : Resolution :=
  if r.trigger st.flags then specFire r st else st

/-- One pass over the table in which each rule reads the flags as the rules
before it left them. -/
def specRound (rules : List Rule) (st : Resolution) : Resolution :=
  rules.foldl (fun acc r => specApplyRule r acc) st

/-- One pass over the table in which every rule reads the flags as they were when
the pass began. -/
def specRoundAtOnce (rules : List Rule) (st : Resolution) : Resolution :=
  rules.foldl (fun acc r => if r.trigger st.flags then specFire r acc else acc) st

/-- Passes repeated until one changes neither a flag nor the members, at most
`n` of them. -/
def specClosure (round : Resolution → Resolution) : Nat → Resolution → Resolution
  | 0, st => st
  | n + 1, st => if round st = st then st else specClosure round n (round st)

/-- The state the closure starts from: `showAll` expanded, the two base members. -/
def specStart (md : Metadata) (f : Flags) : Resolution :=
  { flags := expandShowAll f, requiredFiles := [md.SpecDumpFile, md.ConfigDumpFile] }

/-- The resolver of the specification, rules read one after the other, with three
passes allowed. -/
def specResolve (md : Metadata) (f : Flags) : Resolution :=
  specClosure (specRound (specRules md)) 3 (specStart md f)

/-- The resolver of the specification, the rules of a pass read at once, with
three passes allowed. -/
def specResolveAtOnce (md : Metadata) (f : Flags) : Resolution :=
  specClosure (specRoundAtOnce (specRules md)) 3 (specStart md f)

/-- A rule leaves a state alone when it does not fire, or when the flags it
forces are on and its members are there already. -/
def Rule.Settled (r : Rule) (st : Resolution) : Prop :=
  r.trigger st.flags = true →
    r.implied st.flags = st.flags ∧ ∀ y ∈ r.members, y ∈ st.requiredFiles

/-! ## `lib/network.go` -/

/-- The struct `NetworkSubnet`: an address with its prefix length and a gateway,
both kept as the strings they were read as. -/
structure NetworkSubnet where
  IPNet : String
  Gateway : String
  deriving DecidableEq, Repr

/-- The struct `NetworkInterface`. -/
structure NetworkInterface where
  Subnets : List NetworkSubnet
  MacAddress : String
  deriving DecidableEq, Repr

/-- A Go `map[string]NetworkInterface`: `none` is the nil map, `some entries` a
map holding these entries (one for each key). -/
abbrev InterfaceMap := Option (List (String × NetworkInterface))

/-- Go's `len` on a map: zero for the nil map. -/
def InterfaceMap.len : InterfaceMap → Nat
  | none => 0
  | some entries => entries.length

/-- The entries of a map, none for the nil map. -/
def InterfaceMap.entries : InterfaceMap → List (String × NetworkInterface)
  | none => []
  | some entries => entries

/-- A map is well formed when no key occurs twice. -/
def InterfaceMap.WellFormed (m : InterfaceMap) : Prop :=
  (m.entries.map Prod.fst).Nodup

/-- The anonymous struct of the field `Podman` of `PodmanNetworkStatus`. -/
structure PodmanSection where
  Interfaces : InterfaceMap
  deriving DecidableEq, Repr

/-- The struct `PodmanNetworkStatus`. -/
structure PodmanNetworkStatus where
  Podman : PodmanSection
  deriving DecidableEq, Repr

/-- The order in which one `range` statement visits the entries of a map. Go
leaves it open; each entry is visited once. -/
structure RangeOrder where
  visit : List (String × NetworkInterface) → List (String × NetworkInterface)
  visit_perm : ∀ entries, (visit entries).Perm entries

/-- The order in which the entries are listed. -/
def RangeOrder.listed : RangeOrder :=
  { visit := fun entries => entries, visit_perm := fun entries => List.Perm.refl entries }

/-- The body of the inner loop of `FormatNetworkInfo` (lines 58-61). -/
def appendSubnet (result : String) (subnet : NetworkSubnet) : String :=
  let result := result ++ ("  IP/Subnet: " ++ subnet.IPNet ++ "\n")
  let result := result ++ ("  Gateway: " ++ subnet.Gateway ++ "\n")
  result

/-- The body of the outer loop of `FormatNetworkInfo` (lines 54-63). -/
def appendInterface (result : String) (entry : String × NetworkInterface) : String :=
  let result := result ++ ("Interface: " ++ entry.1 ++ "\n")
  let result := result ++ ("  MAC Address: " ++ entry.2.MacAddress ++ "\n")
  let result := entry.2.Subnets.foldl appendSubnet result
  let result := result ++ "\n"
  result

/-- The function `FormatNetworkInfo` of `lib/network.go`; the argument is a
pointer, `none` when nil, and `order` is the order in which the `range` over the
map visits its entries. -/
def FormatNetworkInfo (order : RangeOrder) (networkStatus : Option PodmanNetworkStatus) :
    String :=
  match networkStatus with
  | none => "No network interfaces found"
  | some ns =>
    if ns.Podman.Interfaces.len = 0 then "No network interfaces found"
    else (order.visit ns.Podman.Interfaces.entries).foldl appendInterface ""

/-- The two lines written for one subnet. -/
def subnetLines (subnet : NetworkSubnet) : String :=
  "  IP/Subnet: " ++ subnet.IPNet ++ "\n" ++ "  Gateway: " ++ subnet.Gateway ++ "\n"

/-- Concatenation of a list of strings, in order. -/
def concatAll : List String → String
  | [] => ""
  | s :: rest => s ++ concatAll rest

/-- The block written for one interface: its name, its MAC address, the lines of
its subnets in their order, an empty line. -/
def interfaceBlock (entry : String × NetworkInterface) : String :=
  "Interface: " ++ entry.1 ++ "\n" ++ "  MAC Address: " ++ entry.2.MacAddress ++ "\n"
    ++ concatAll (entry.2.Subnets.map subnetLines) ++ "\n"

/-- The interface of the test `TestFormatNetworkInfo`. -/
def eth0Status : PodmanNetworkStatus :=
  { Podman :=
    { Interfaces := some
        [ ("eth0",
            { Subnets := [ { IPNet := "10.88.0.9/16", Gateway := "10.88.0.1" } ],
              MacAddress := "f2:99:8d:fb:5a:57" }) ] } }

/-- The order opposite to the one in which the entries are listed. -/
def RangeOrder.reversed : RangeOrder :=
  { visit := fun entries => entries.reverse
    visit_perm := fun entries => List.reverse_perm entries }

/-- A record with two interfaces. -/
def twoInterfaces : PodmanNetworkStatus :=
  { Podman :=
    { Interfaces := some
        [ ("eth0",
            { Subnets := [ { IPNet := "10.88.0.9/16", Gateway := "10.88.0.1" } ],
              MacAddress := "f2:99:8d:fb:5a:57" }),
          ("eth1", { Subnets := [], MacAddress := "02:00:00:00:00:01" }) ] } }

/-- Selection `a` asks for no more than selection `b`: every boolean flag set in
`a` is set in `b`, and `b` has a PID filter when `a` has one. -/
def Flags.Below (a b : Flags) : Prop :=
  (a.stats = true → b.stats = true) ∧ (a.mounts = true → b.mounts = true)
    ∧ (a.pID ≠ 0 → b.pID ≠ 0) ∧ (a.psTree = true → b.psTree = true)
    ∧ (a.psTreeCmd = true → b.psTreeCmd = true) ∧ (a.psTreeEnv = true → b.psTreeEnv = true)
    ∧ (a.files = true → b.files = true) ∧ (a.sockets = true → b.sockets = true)
    ∧ (a.showAll = true → b.showAll = true) ∧ (a.showMetdata = true → b.showMetdata = true)
    ∧ (a.showNetwork = true → b.showNetwork = true)

/-- Two selections agree on what the list is built from: `showAll`, `stats`,
`psTree`, `psTreeCmd`, `psTreeEnv`, `files`, `sockets`, `showNetwork`, and on
whether there is a PID filter. -/
def Flags.SameViews (a b : Flags) : Prop :=
  a.showAll = b.showAll ∧ a.stats = b.stats ∧ a.psTree = b.psTree
    ∧ a.psTreeCmd = b.psTreeCmd ∧ a.psTreeEnv = b.psTreeEnv ∧ a.files = b.files
    ∧ a.sockets = b.sockets ∧ a.showNetwork = b.showNetwork ∧ (a.pID ≠ 0 ↔ b.pID ≠ 0)

/-- A sample selection: `--stats --mounts --metadata` with a PID filter and the
JSON format. -/
def sampleStats : Flags :=
  { emptyFlags "json" with stats := true, mounts := true, showMetdata := true, pID := 9 }

/-- A sample selection: `--stats` with another PID filter and the tree format. -/
def sampleStatsTree : Flags :=
  { emptyFlags "tree" with stats := true, pID := 1 }

/-! ## Errors, tasks and the collaborators of `inspect` -/

/-- A Go `error` value: its text, and the error it wraps when it was made with
the verb `%w`. -/
inductive GoError where
  | plain (text : String)
  | wrapping (text : String) (cause : GoError)
  deriving DecidableEq, Repr

/-- The method `Error` of an error: its text. -/
def GoError.Error : GoError → String
  | .plain text => text
  | .wrapping text _ => text

/-- The method `Unwrap` of an error: the error it wraps, if any. -/
def GoError.Unwrap : GoError → Option GoError
  | .plain _ => none
  | .wrapping _ cause => some cause

/-- The call `fmt.Errorf(lead + "%w", err)`. -/
def errorfWrap (lead : String) (err : GoError) : GoError :=
  .wrapping (lead ++ err.Error) err

/-- A task of package `internal`, of which `inspect` reads the field `Dir`, the
directory the members were extracted to. -/
structure Task where
  Dir : String
  deriving DecidableEq, Repr

/-- What `inspect` calls and does not define: `CreateTasks`, `RenderTreeView` and
`RenderJSONView` of package `internal`, the helper `ReadJSONFile` of package
`lib` (given the directory and the member name it returns the decoded record and
the path read, or an error), and the order in which a `range` visits a map. -/
structure Collaborators where
  CreateTasks : List String → List String → Except GoError (List Task)
  RenderTreeView : List Task → Option GoError
  RenderJSONView : List Task → Option GoError
  ReadJSONFile : String → String → Except GoError (PodmanNetworkStatus × String)
  rangeOrder : RangeOrder

/-- What a run of `inspect` does to the outside, in the order it does it. -/
inductive Event where
  | createTasks (args : List String) (requiredFiles : List String)
  | cleanupTasks (tasks : List Task)
  | readNetworkStatus (dir : String)
  | printed (text : String)
  | renderTreeView (tasks : List Task)
  | renderJSONView (tasks : List Task)
  deriving DecidableEq, Repr

/-- The function `ReadNetworkStatus` of `lib/network.go`: the record (a pointer,
`none` when nil), the path, the error (`none` when nil). -/
def ReadNetworkStatus
    (readJSONFile : String → String → Except GoError (PodmanNetworkStatus × String))
    (checkpointDirectory : String) : Option PodmanNetworkStatus × String × Option GoError :=
  match readJSONFile checkpointDirectory NetworkStatusFile with
  | .error err => (none, "", some (errorfWrap "failed to read network status: " err))
  | .ok (networkStatus, networkStatusFile) => (some networkStatus, networkStatusFile, none)

/-- The body of the loop of lines 200-207 of `inspect`, for one task. -/
def networkStep (env : Collaborators) (task : Task) : List Event :=
  match ReadNetworkStatus env.ReadJSONFile task.Dir with
  | (_, file, some err) =>
    [ .readNetworkStatus task.Dir,
      .printed ("Warning: Failed to read network information from " ++ file ++ ": "
        ++ err.Error ++ "\n") ]
  | (networkStatus, _, none) =>
    [ .readNetworkStatus task.Dir,
      .printed ("\nNetwork Information for " ++ task.Dir ++ ":\n"
        ++ FormatNetworkInfo env.rangeOrder networkStatus) ]

/-- The loop of lines 200-207 of `inspect`. -/
def networkLoop (env : Collaborators) : List Task → List Event
  | [] => []
  | task :: rest => networkStep env task ++ networkLoop env rest

/-- The `switch` of lines 210-217 of `inspect`: the renderer called, if any, and
the error returned. -/
def renderDispatch (env : Collaborators) (format : String) (tasks : List Task) :
    List Event × Option GoError :=
  if format = "tree" then ([.renderTreeView tasks], env.RenderTreeView tasks)
  else if format = "json" then ([.renderJSONView tasks], env.RenderJSONView tasks)
  else ([], some (.plain ("invalid output format: " ++ format)))

/-- A run of `inspect`: the flag variables as it leaves them, what it did, the
error it returns (`none` when nil). -/
structure Run where
  flags : Flags
  trace : List Event
  err : Option GoError
  deriving DecidableEq, Repr

/-- The function `inspect` of `cmd/inspect.go`. The deferred `CleanupTasks` runs
when the function returns, after the renderer. -/
def inspect (env : Collaborators) (md : Metadata) (args : List String) (f : Flags) : Run :=
  let r := inspectResolve md f
  match env.CreateTasks args r.requiredFiles with
  | .error err =>
    { flags := r.flags, trace := [.createTasks args r.requiredFiles], err := some err }
  | .ok tasks =>
    let network := if r.flags.showNetwork then networkLoop env tasks else []
    let rendered := renderDispatch env r.flags.format tasks
    { flags := r.flags
      trace := [.createTasks args r.requiredFiles] ++ network ++ rendered.1
        ++ [.cleanupTasks tasks]
      err := rendered.2 }

/-- The calls of `CreateTasks` in a trace. -/
def createsOf (trace : List Event) : List (List String × List String) :=
  trace.filterMap fun e =>
    match e with
    | .createTasks args requiredFiles => some (args, requiredFiles)
    | _ => none

/-- The calls of `CleanupTasks` in a trace. -/
def cleanupsOf (trace : List Event) : List (List Task) :=
  trace.filterMap fun e =>
    match e with
    | .cleanupTasks tasks => some tasks
    | _ => none

/-- The directories of the calls of `ReadNetworkStatus` in a trace. -/
def readsOf (trace : List Event) : List String :=
  trace.filterMap fun e =>
    match e with
    | .readNetworkStatus dir => some dir
    | _ => none

/-- The texts printed in a trace. -/
def printsOf (trace : List Event) : List String :=
  trace.filterMap fun e =>
    match e with
    | .printed text => some text
    | _ => none

/-- The calls of a renderer in a trace. -/
def rendersOf (trace : List Event) : List Event :=
  trace.filter fun e =>
    match e with
    | .renderTreeView _ => true
    | .renderJSONView _ => true
    | _ => false

/-! ## Decoding the network status member -/

/-- A JSON value; a number keeps its text, a string is kept with its escapes
resolved. -/
inductive Json where
  | null
  | bool (b : Bool)
  | number (text : String)
  | string (s : String)
  | array (items : List Json)
  | object (fields : List (String × Json))

/-- The white space of JSON: space, tab, line feed, carriage return. -/
def isJsonSpace (c : Char) : Bool :=
  c == ' ' || c == '\t' || c == '\n' || c == '\r'

/-- The input after its leading white space. -/
def jsonSkip : List Char → List Char
  | [] => []
  | c :: cs => if isJsonSpace c then jsonSkip cs else c :: cs

/-- The value of a hexadecimal digit, of either case. -/
def hexValue (c : Char) : Option Nat :=
  if '0' ≤ c ∧ c ≤ '9' then some (c.toNat - 48)
  else if 'a' ≤ c ∧ c ≤ 'f' then some (c.toNat - 87)
  else if 'A' ≤ c ∧ c ≤ 'F' then some (c.toNat - 55)
  else none

/-- The value of four hexadecimal digits. -/
def hex4 (a b c d : Char) : Option Nat :=
  match hexValue a, hexValue b, hexValue c, hexValue d with
  | some x, some y, some z, some w => some (((x * 16 + y) * 16 + z) * 16 + w)
  | _, _, _, _ => none

/-- The character a one-letter escape stands for. -/
def simpleEscape (e : Char) : Option Char :=
  if e = '"' then some '"'
  else if e = '\\' then some '\\'
  else if e = '/' then some '/'
  else if e = 'b' then some (Char.ofNat 8)
  else if e = 'f' then some (Char.ofNat 12)
  else if e = 'n' then some '\n'
  else if e = 'r' then some '\r'
  else if e = 't' then some '\t'
  else none

/-- An escape `\uXXXX` at the front of the input: its value and what follows it. -/
def nextUnicodeEscape : List Char → Option (Nat × List Char)
  | s :: t :: a :: b :: c :: d :: cs =>
    if s = '\\' ∧ t = 'u' then
      match hex4 a b c d with
      | none => none
      | some u => some (u, cs)
    else none
  | _ => none

/-- What follows `\u` in a string: four hexadecimal digits. A value outside the
surrogate range is that character; a high surrogate followed by the escape of a
low surrogate is the character the pair encodes, and both escapes are read; any
other surrogate is the replacement character U+FFFD. -/
def unicodeStep : List Char → Option (Option Char × List Char)
  | a :: b :: c :: d :: cs =>
    match hex4 a b c d with
    | none => none
    | some u =>
      if u < 0xD800 ∨ 0xE000 ≤ u then some (some (Char.ofNat u), cs)
      else
        match nextUnicodeEscape cs with
        | none => some (some (Char.ofNat 0xFFFD), cs)
        | some (v, cs') =>
          if u < 0xDC00 ∧ 0xDC00 ≤ v ∧ v < 0xE000 then
            some (some (Char.ofNat ((u - 0xD800) * 1024 + (v - 0xDC00) + 0x10000)), cs')
          else some (some (Char.ofNat 0xFFFD), cs)
  | _ => none

/-- One step inside a string: `none` with the rest at the closing quote, the next
character of the string with the rest otherwise; no step on a control character,
on an escape that JSON does not have, or at the end of the input. -/
def stringStep : List Char → Option (Option Char × List Char)
  | [] => none
  | c :: cs =>
    if c = '"' then some (none, cs)
    else if c = '\\' then
      match cs with
      | [] => none
      | e :: rest =>
        if e = 'u' then unicodeStep rest
        else
          match simpleEscape e with
          | none => none
          | some ch => some (some ch, rest)
    else if c.toNat < 32 then none
    else some (some c, cs)

/-- Steps inside a string up to its closing quote, at most `fuel` of them. -/
def jsonStringLoop : Nat → List Char → Option (List Char × List Char)
  | 0, _ => none
  | fuel + 1, cs =>
    match stringStep cs with
    | none => none
    | some (none, rest) => some ([], rest)
    | some (some ch, rest) =>
      match jsonStringLoop fuel rest with
      | none => none
      | some (s, rest') => some (ch :: s, rest')

/-- A string, read from behind its opening quote: its characters and what follows
its closing quote. Each step reads at least one character, so as many steps as
there are characters are enough. -/
def jsonString (cs : List Char) : Option (List Char × List Char) :=
  jsonStringLoop cs.length cs

/-- The input behind a given word, when it starts with that word. -/
def dropWord : List Char → List Char → Option (List Char)
  | [], cs => some cs
  | _ :: _, [] => none
  | w :: ws, c :: cs => if w = c then dropWord ws cs else none

/-- The input behind one or more digits. -/
def dropDigits1 : List Char → Option (List Char)
  | [] => none
  | c :: cs => if c.isDigit then some (cs.dropWhile Char.isDigit) else none

/-- The input behind an optional minus sign. -/
def dropSign : List Char → List Char
  | [] => []
  | c :: cs => if c = '-' then cs else c :: cs

/-- The input behind the integer part of a number: `0`, or a digit from 1 to 9
and more digits. -/
def dropInt : List Char → Option (List Char)
  | [] => none
  | c :: cs =>
    if c = '0' then some cs
    else if c.isDigit then some (cs.dropWhile Char.isDigit)
    else none

/-- The input behind an optional fraction: a point and one or more digits. -/
def dropFrac : List Char → Option (List Char)
  | [] => some []
  | c :: cs => if c = '.' then dropDigits1 cs else some (c :: cs)

/-- The input behind an optional exponent: `e` or `E`, an optional sign, one or
more digits. -/
def dropExp : List Char → Option (List Char)
  | [] => some []
  | c :: cs =>
    if c = 'e' ∨ c = 'E' then
      match cs with
      | [] => none
      | s :: rest => if s = '+' ∨ s = '-' then dropDigits1 rest else dropDigits1 (s :: rest)
    else some (c :: cs)

/-- The input behind a number. -/
def dropNumber (cs : List Char) : Option (List Char) :=
  match dropInt (dropSign cs) with
  | none => none
  | some afterInt =>
    match dropFrac afterInt with
    | none => none
    | some afterFrac => dropExp afterFrac

/-- A value that is neither a string, an array nor an object: `true`, `false`,
`null` or a number. -/
def jsonScalar (cs : List Char) : Option (Json × List Char) :=
  match dropWord ['t', 'r', 'u', 'e'] cs with
  | some rest => some (.bool true, rest)
  | none =>
    match dropWord ['f', 'a', 'l', 's', 'e'] cs with
    | some rest => some (.bool false, rest)
    | none =>
      match dropWord ['n', 'u', 'l', 'l'] cs with
      | some rest => some (.null, rest)
      | none =>
        match dropNumber cs with
        | some rest => some (.number (String.mk (cs.take (cs.length - rest.length))), rest)
        | none => none

/-- What the parser reads: a value, the members of an object behind its opening
brace, the elements of an array behind its opening bracket. -/
inductive JsonSort where
  | value
  | members
  | elements

/-- The deepest nesting of arrays and objects the decoder of Go accepts. -/
def maxNestingDepth : Nat := 10000

/-- The parser, by recursive descent: `fuel` bounds the number of nested calls,
`depth` is the number of arrays and objects that may still be opened. Members and
elements come back as an object and as an array. -/
def jsonParse : Nat → Nat → JsonSort → List Char → Option (Json × List Char)
  | 0, _, _, _ => none
  | fuel + 1, depth, .value, cs =>
    match jsonSkip cs with
    | [] => none
    | c :: rest =>
      if c = '"' then
        match jsonString rest with
        | none => none
        | some (s, rest') => some (.string (String.mk s), rest')
      else if c = '\x7b' then
        if depth = 0 then none
        else
          match jsonSkip rest with
          | [] => none
          | d :: rest' =>
            if d = '\x7d' then some (.object [], rest')
            else jsonParse fuel (depth - 1) .members rest
      else if c = '[' then
        if depth = 0 then none
        else
          match jsonSkip rest with
          | [] => none
          | d :: rest' =>
            if d = ']' then some (.array [], rest')
            else jsonParse fuel (depth - 1) .elements rest
      else jsonScalar (c :: rest)
  | fuel + 1, depth, .members, cs =>
    match jsonSkip cs with
    | [] => none
    | c :: rest =>
      if c = '"' then
        match jsonString rest with
        | none => none
        | some (key, afterKey) =>
          match jsonSkip afterKey with
          | [] => none
          | colon :: afterColon =>
            if colon = ':' then
              match jsonParse fuel depth .value afterColon with
              | none => none
              | some (v, afterValue) =>
                match jsonSkip afterValue with
                | [] => none
                | d :: rest' =>
                  if d = ',' then
                    match jsonParse fuel depth .members rest' with
                    | some (.object fields, rest'') =>
                      some (.object ((String.mk key, v) :: fields), rest'')
                    | _ => none
                  else if d = '\x7d' then some (.object [(String.mk key, v)], rest')
                  else none
            else none
      else none
  | fuel + 1, depth, .elements, cs =>
    match jsonParse fuel depth .value cs with
    | none => none
    | some (v, afterValue) =>
      match jsonSkip afterValue with
      | [] => none
      | d :: rest' =>
        if d = ',' then
          match jsonParse fuel depth .elements rest' with
          | some (.array items, rest'') => some (.array (v :: items), rest'')
          | _ => none
        else if d = ']' then some (.array [v], rest')
        else none

/-- A whole document: one value, white space around it allowed, nothing after.
No call of the parser reads less than one character, so one unit of fuel for each
character and one more are enough. -/
def jsonDocument (content : String) : Option Json :=
  match jsonParse (content.length + 1) maxNestingDepth .value content.data with
  | none => none
  | some (v, rest) => if jsonSkip rest = [] then some v else none

/-- One character of a key against one character of a field name, case set aside:
the character itself, its capital, and for `s` and `k` the two letters that fold
to them, the long s (U+017F) and the Kelvin sign (U+212A). -/
def foldChar (tag c : Char) : Bool :=
  c == tag || c.toLower == tag || (tag == 's' && c.toNat == 0x17F)
    || (tag == 'k' && c.toNat == 0x212A)

/-- A key against a field name, character by character, case set aside. -/
def foldsTo : List Char → List Char → Bool
  | [], [] => true
  | t :: ts, c :: cs => foldChar t c && foldsTo ts cs
  | _, _ => false

/-- A key names the field of a given JSON name: the name itself, or the name but
for the case of its letters. -/
def keyIs (name key : String) : Bool :=
  key == name || foldsTo name.data key.data

/-- The word of the decoder for the kind of a value. -/
def Json.kind : Json → String
  | .null => "null"
  | .bool _ => "bool"
  | .number _ => "number"
  | .string _ => "string"
  | .array _ => "array"
  | .object _ => "object"

/-- The error of the decoder for a value of a kind the target cannot hold; the
text is the decoder's, the target named by its type alone. -/
def typeError (j : Json) (target : String) : GoError :=
  .plain ("json: cannot unmarshal " ++ j.kind ++ " into Go value of type " ++ target)

/-- A value decoded into a string: a string replaces it, `null` leaves it as it
is, any other value is an error. -/
def decodeString (old : String) : Json → Except GoError String
  | .string s => .ok s
  | .null => .ok old
  | j => .error (typeError j "string")

/-- One key of a subnet object, decoded into the subnet: `ipnet`, `gateway`;
other keys are passed over. -/
def decodeSubnetField (subnet : NetworkSubnet) (field : String × Json) :
    Except GoError NetworkSubnet :=
  if keyIs "ipnet" field.1 then
    match decodeString subnet.IPNet field.2 with
    | .error err => .error err
    | .ok s => .ok { subnet with IPNet := s }
  else if keyIs "gateway" field.1 then
    match decodeString subnet.Gateway field.2 with
    | .error err => .error err
    | .ok s => .ok { subnet with Gateway := s }
  else .ok subnet

/-- A value decoded into a subnet: the keys of an object one after the other,
`null` leaves it as it is, any other value is an error. -/
def decodeSubnet (old : NetworkSubnet) : Json → Except GoError NetworkSubnet
  | .object fields => fields.foldlM decodeSubnetField old
  | .null => .ok old
  | j => .error (typeError j "lib.NetworkSubnet")

/-- The elements of an array decoded into a slice, element by element: the
element at a place already there is decoded into what that place holds, the
others into empty subnets. -/
def decodeSubnets : List NetworkSubnet → List Json → Except GoError (List NetworkSubnet)
  | _, [] => .ok []
  | backing, item :: items =>
    match decodeSubnet (backing.headD { IPNet := "", Gateway := "" }) item with
    | .error err => .error err
    | .ok subnet =>
      match decodeSubnets backing.tail items with
      | .error err => .error err
      | .ok rest => .ok (subnet :: rest)

/-- An interface while it is decoded: the interface, and what the array behind
its slice of subnets holds beyond the length of the slice. -/
structure InterfaceState where
  iface : NetworkInterface
  spare : List NetworkSubnet

/-- A value decoded into the slice of subnets of an interface: an array is decoded
over the array the slice has; the empty array and `null` leave a slice without
elements and drop that array; any other value is an error. -/
def decodeSubnetsInto (st : InterfaceState) : Json → Except GoError InterfaceState
  | .array [] => .ok { iface := { st.iface with Subnets := [] }, spare := [] }
  | .array items =>
    match decodeSubnets (st.iface.Subnets ++ st.spare) items with
    | .error err => .error err
    | .ok subnets =>
      .ok { iface := { st.iface with Subnets := subnets }
            spare := (st.iface.Subnets ++ st.spare).drop items.length }
  | .null => .ok { iface := { st.iface with Subnets := [] }, spare := [] }
  | j => .error (typeError j "[]lib.NetworkSubnet")

/-- One key of an interface object: `subnets`, `mac_address`; other keys are
passed over. -/
def decodeInterfaceField (st : InterfaceState) (field : String × Json) :
    Except GoError InterfaceState :=
  if keyIs "subnets" field.1 then decodeSubnetsInto st field.2
  else if keyIs "mac_address" field.1 then
    match decodeString st.iface.MacAddress field.2 with
    | .error err => .error err
    | .ok s => .ok { st with iface := { st.iface with MacAddress := s } }
  else .ok st

/-- A value decoded into a new element of the map of interfaces, which starts
empty. -/
def decodeInterface : Json → Except GoError NetworkInterface
  | .object fields =>
    match fields.foldlM decodeInterfaceField
        { iface := { Subnets := [], MacAddress := "" }, spare := [] } with
    | .error err => .error err
    | .ok st => .ok st.iface
  | .null => .ok { Subnets := [], MacAddress := "" }
  | j => .error (typeError j "lib.NetworkInterface")

/-- Storing an entry in a map: in place of the entry with the same key when there
is one, as a new entry otherwise. -/
def mapStore (entries : List (String × NetworkInterface)) (name : String)
    (iface : NetworkInterface) : List (String × NetworkInterface) :=
  if entries.any (fun entry => entry.1 == name) then
    entries.map fun entry => if entry.1 = name then (name, iface) else entry
  else entries ++ [(name, iface)]

/-- One key of the object of interfaces: an interface stored under the key. -/
def decodeInterfacesField (entries : List (String × NetworkInterface))
    (field : String × Json) : Except GoError (List (String × NetworkInterface)) :=
  match decodeInterface field.2 with
  | .error err => .error err
  | .ok iface => .ok (mapStore entries field.1 iface)

/-- A value decoded into the map of interfaces: the keys of an object are stored
in the map, made if it was nil; `null` makes the map nil; any other value is an
error. -/
def decodeInterfaces (old : InterfaceMap) : Json → Except GoError InterfaceMap
  | .object fields =>
    match fields.foldlM decodeInterfacesField old.entries with
    | .error err => .error err
    | .ok entries => .ok (some entries)
  | .null => .ok none
  | j => .error (typeError j "map[string]lib.NetworkInterface")

/-- One key of the object `podman`: `interfaces`; other keys are passed over. -/
def decodePodmanField (podman : PodmanSection) (field : String × Json) :
    Except GoError PodmanSection :=
  if keyIs "interfaces" field.1 then
    match decodeInterfaces podman.Interfaces field.2 with
    | .error err => .error err
    | .ok interfaces => .ok { podman with Interfaces := interfaces }
  else .ok podman

/-- A value decoded into the struct of the field `Podman`. -/
def decodePodman (old : PodmanSection) : Json → Except GoError PodmanSection
  | .object fields => fields.foldlM decodePodmanField old
  | .null => .ok old
  | j => .error (typeError j "struct")

/-- One key of the document: `podman`; other keys are passed over. -/
def decodeStatusField (status : PodmanNetworkStatus) (field : String × Json) :
    Except GoError PodmanNetworkStatus :=
  if keyIs "podman" field.1 then
    match decodePodman status.Podman field.2 with
    | .error err => .error err
    | .ok podman => .ok { status with Podman := podman }
  else .ok status

/-- A value decoded into a new `PodmanNetworkStatus`. -/
def decodeStatus : Json → Except GoError PodmanNetworkStatus
  | .object fields => fields.foldlM decodeStatusField { Podman := { Interfaces := none } }
  | .null => .ok { Podman := { Interfaces := none } }
  | j => .error (typeError j "lib.PodmanNetworkStatus")

/-- Modelled from the spec: the decoding of the network status member, done in the
source by `ReadJSONFile` of package `lib`, which is not among the files at hand,
with `json.Unmarshal`. The content must be one JSON value; it is decoded along
the schema `podman` / `interfaces` / name / `subnets` (each `ipnet`, `gateway`)
and `mac_address`, the keys being the tags of the structs of `lib/network.go`,
their case set aside. A key outside the schema is passed over, a key that is
absent leaves its field empty, a value of another kind than the schema's is an
error. The file is taken as text, and the further words of the decoder's errors
are left out. -/
def decodeNetworkStatus (content : String) : Except GoError PodmanNetworkStatus :=
  match jsonDocument content with
  | none => .error (.plain "invalid JSON input")
  | some j => decodeStatus j

/-- The files of the machine: the content of the file at a path, `none` when the
file cannot be read. -/
abbrev FileSystem := String → Option String

/-- Modelled from the spec: the helper `ReadJSONFile` of package `lib`, which is
not among the files at hand: it reads the member `file` of the directory `dir`,
decodes it, and returns the record with the path it read; it fails when the member
is missing and when it is not well-formed data for the schema. -/
def ReadJSONFile (fs : FileSystem) (dir file : String) :
    Except GoError (PodmanNetworkStatus × String) :=
  match fs (filepathJoin [dir, file]) with
  | none =>
    .error (.plain ("open " ++ filepathJoin [dir, file] ++ ": no such file or directory"))
  | some content =>
    match decodeNetworkStatus content with
    | .error err =>
      .error (errorfWrap ("failed to unmarshal " ++ filepathJoin [dir, file] ++ ": ") err)
    | .ok status => .ok (status, filepathJoin [dir, file])

/-- The JSON document of the round-trip property, on one line. -/
def eth0Document : String :=
  "\x7b\"podman\":\x7b\"interfaces\":\x7b\"eth0\":\x7b\"subnets\":[\x7b\"ipnet\":\"10.88.0.9/16\",\"gateway\":\"10.88.0.1\"\x7d],\"mac_address\":\"f2:99:8d:fb:5a:57\"\x7d\x7d\x7d\x7d"

/-- A machine whose only file is the network status member of `/tmp/cp1`, holding
the document of the round-trip property. -/
def eth0Files : FileSystem :=
  fun path => if path = "/tmp/cp1/network.status" then some eth0Document else none

/-- A machine without any file. -/
def noFiles : FileSystem :=
  fun _ => none

/-! ## Well-formed network status documents -/

/-- The grammar of JSON, as rules: `JsonReads depth sort input value rest` says
that a value (or the members of an object, or the elements of an array) is read
from the front of `input`, is `value`, and leaves `rest`, with at most `depth`
arrays and objects inside one another. -/
inductive JsonReads : Nat → JsonSort → List Char → Json → List Char → Prop
  | string {depth : Nat} {cs afterQuote s rest : List Char} :
      jsonSkip cs = '"' :: afterQuote → jsonString afterQuote = some (s, rest) →
      JsonReads depth .value cs (.string (String.mk s)) rest
  | scalar {depth : Nat} {cs rest : List Char} {j : Json} :
      jsonScalar (jsonSkip cs) = some (j, rest) →
      JsonReads depth .value cs j rest
  | emptyObject {depth : Nat} {cs inner rest : List Char} :
      jsonSkip cs = '\x7b' :: inner → jsonSkip inner = '\x7d' :: rest →
      JsonReads (depth + 1) .value cs (.object []) rest
  | object {depth : Nat} {cs inner rest : List Char} {fields : List (String × Json)} :
      jsonSkip cs = '\x7b' :: inner → JsonReads depth .members inner (.object fields) rest →
      JsonReads (depth + 1) .value cs (.object fields) rest
  | emptyArray {depth : Nat} {cs inner rest : List Char} :
      jsonSkip cs = '[' :: inner → jsonSkip inner = ']' :: rest →
      JsonReads (depth + 1) .value cs (.array []) rest
  | array {depth : Nat} {cs inner rest : List Char} {items : List Json} :
      jsonSkip cs = '[' :: inner → JsonReads depth .elements inner (.array items) rest →
      JsonReads (depth + 1) .value cs (.array items) rest
  | lastMember {depth : Nat} {cs afterQuote key afterKey afterColon afterValue rest : List Char}
      {v : Json} :
      jsonSkip cs = '"' :: afterQuote → jsonString afterQuote = some (key, afterKey) →
      jsonSkip afterKey = ':' :: afterColon → JsonReads depth .value afterColon v afterValue →
      jsonSkip afterValue = '\x7d' :: rest →
      JsonReads depth .members cs (.object [(String.mk key, v)]) rest
  | nextMember {depth : Nat}
      {cs afterQuote key afterKey afterColon afterValue more rest : List Char}
      {v : Json} {fields : List (String × Json)} :
      jsonSkip cs = '"' :: afterQuote → jsonString afterQuote = some (key, afterKey) →
      jsonSkip afterKey = ':' :: afterColon → JsonReads depth .value afterColon v afterValue →
      jsonSkip afterValue = ',' :: more → JsonReads depth .members more (.object fields) rest →
      JsonReads depth .members cs (.object ((String.mk key, v) :: fields)) rest
  | lastElement {depth : Nat} {cs afterValue rest : List Char} {v : Json} :
      JsonReads depth .value cs v afterValue → jsonSkip afterValue = ']' :: rest →
      JsonReads depth .elements cs (.array [v]) rest
  | nextElement {depth : Nat} {cs afterValue more rest : List Char} {v : Json}
      {items : List Json} :
      JsonReads depth .value cs v afterValue → jsonSkip afterValue = ',' :: more →
      JsonReads depth .elements more (.array items) rest →
      JsonReads depth .elements cs (.array (v :: items)) rest

/-- A text is a JSON document with a given value: one value, white space around
it allowed, nothing after, arrays and objects nested no deeper than the decoder
accepts. -/
def JsonDocument (content : String) (j : Json) : Prop :=
  ∃ rest, JsonReads maxNestingDepth .value content.data j rest ∧ jsonSkip rest = []

/-- A value a string field can take: a string or `null`. -/
def Json.IsStringOrNull : Json → Prop
  | .string _ => True
  | .null => True
  | _ => False

/-- A value a subnet can take: `null`, or an object whose keys `ipnet` and
`gateway` hold strings or `null`. -/
def SubnetShape : Json → Prop
  | .object fields =>
    ∀ field ∈ fields,
      (keyIs "ipnet" field.1 = true ∨ keyIs "gateway" field.1 = true) → field.2.IsStringOrNull
  | .null => True
  | _ => False

/-- A value the slice of subnets can take: `null`, or an array of subnets. -/
def SubnetsShape : Json → Prop
  | .array items => ∀ item ∈ items, SubnetShape item
  | .null => True
  | _ => False

/-- A value an interface can take: `null`, or an object whose key `subnets` holds
subnets and whose key `mac_address` holds a string or `null`. -/
def InterfaceShape : Json → Prop
  | .object fields =>
    ∀ field ∈ fields,
      (keyIs "subnets" field.1 = true → SubnetsShape field.2)
        ∧ (keyIs "mac_address" field.1 = true → field.2.IsStringOrNull)
  | .null => True
  | _ => False

/-- A value the map of interfaces can take: `null`, or an object that holds an
interface under each key. -/
def InterfacesShape : Json → Prop
  | .object fields => ∀ field ∈ fields, InterfaceShape field.2
  | .null => True
  | _ => False

/-- A value the struct `Podman` can take: `null`, or an object whose key
`interfaces` holds a map of interfaces. -/
def PodmanShape : Json → Prop
  | .object fields => ∀ field ∈ fields, keyIs "interfaces" field.1 = true → InterfacesShape field.2
  | .null => True
  | _ => False

/-- A value the network status can take: `null`, or an object whose key `podman`
holds a `Podman`. -/
def StatusShape : Json → Prop
  | .object fields => ∀ field ∈ fields, keyIs "podman" field.1 = true → PodmanShape field.2
  | .null => True
  | _ => False

/-- The content of a member is well-formed data for the schema of the network
status: it is a JSON document, and what the schema names holds values of the
kinds the schema gives them. -/
def WellFormedStatus (content : String) : Prop :=
  ∃ j, JsonDocument content j ∧ StatusShape j

/-! ## Sample runs -/

/-- Two tasks: the first has a network status member on `eth0Files`, the second
has none. -/
def sampleTasks : List Task :=
  [ { Dir := "/tmp/cp1" }, { Dir := "/tmp/cp2" } ]

/-- Collaborators that succeed: `CreateTasks` yields `sampleTasks`, the renderers
return nil, the files are `eth0Files`. -/
def sampleEnv : Collaborators :=
  { CreateTasks := fun _ _ => .ok sampleTasks
    RenderTreeView := fun _ => none
    RenderJSONView := fun _ => none
    ReadJSONFile := ReadJSONFile eth0Files
    rangeOrder := RangeOrder.listed }

/-- Collaborators whose `CreateTasks` fails. -/
def failingEnv : Collaborators :=
  { CreateTasks := fun _ _ => .error (.plain "stat missing.tar: no such file or directory")
    RenderTreeView := fun _ => none
    RenderJSONView := fun _ => none
    ReadJSONFile := ReadJSONFile eth0Files
    rangeOrder := RangeOrder.listed }

/-- A reader that fails on every member with an error that names no path. -/
def truncatedReader : String → String → Except GoError (PodmanNetworkStatus × String) :=
  fun _ _ => .error (.plain "unexpected end of JSON input")

/-- A sample selection: `--network` alone. -/
def sampleNetwork : Flags :=
  { emptyFlags "tree" with showNetwork := true }

end Checkpoint

/-! ## Properties -/

namespace Checkpoint

/-! ### The list in closed form -/

theorem resolveFrom_eq (md : Metadata) (e : Flags) :
    resolveFrom md e =
      { flags := { e with psTree := psTreeStar e }, requiredFiles := requiredOf md e } := by
  rcases e with ⟨stats, mounts, pID, psTree, psTreeCmd, psTreeEnv, files, sockets, showAll,
    format, showMetdata, showNetwork⟩
  by_cases hp : pID = 0 <;> cases showNetwork <;> cases stats <;> cases psTree <;>
    cases psTreeCmd <;> cases psTreeEnv <;> cases files <;> cases sockets <;>
    simp [resolveFrom, stepBase, stepPID, stepFiles, stepSockets, stepPsTreeCmdEnv, stepPsTree,
      requiredOf, psTreeStar, hp]

theorem inspectResolve_eq (md : Metadata) (f : Flags) :
    inspectResolve md f =
      { flags := { expandShowAll f with psTree := psTreeStar (expandShowAll f) },
        requiredFiles := requiredOf md (expandShowAll f) } := by
  rw [inspectResolve, resolveFrom_eq]

theorem mem_ite_nil {α : Type} (c : Prop) [Decidable c] (l : List α) (x : α) :
    x ∈ (if c then l else []) ↔ c ∧ x ∈ l := by
  by_cases h : c <;> simp [h]

/-! ### The resolver -/

/-- C1: a string is on the list `inspect` builds exactly when it is one of the two
base members, or the network status member and `showNetwork` is set, or
`stats-dump` and `stats` is set, or one of `files.img`, `fs-`, `ids-`, `fdinfo-`
and `files` is set, or one of `files.img`, `ids-`, `fdinfo-` and `sockets` is set,
or one of `pagemap-`, `pages-`, `mm-` and `psTreeCmd` or `psTreeEnv` is set, or one
of `pstree.img`, `core-` and one of `psTree`, a non-zero PID filter, `files`,
`sockets`, `psTreeCmd`, `psTreeEnv` is set; the flags are read after the expansion
of `showAll`, the image names are taken under the checkpoint directory. -/
theorem required_members_exact (md : Metadata) (f : Flags) (x : String) :
    x ∈ (inspectResolve md f).requiredFiles ↔
      (x = md.SpecDumpFile ∨ x = md.ConfigDumpFile
        ∨ ((expandShowAll f).showNetwork = true ∧ x = NetworkStatusFile)
        ∨ ((expandShowAll f).stats = true ∧ x = "stats-dump")
        ∨ ((expandShowAll f).files = true ∧
            x ∈ [filepathJoin [md.CheckpointDirectory, "files.img"],
                 filepathJoin [md.CheckpointDirectory, "fs-"],
                 filepathJoin [md.CheckpointDirectory, "ids-"],
                 filepathJoin [md.CheckpointDirectory, "fdinfo-"]])
        ∨ ((expandShowAll f).sockets = true ∧
            x ∈ [filepathJoin [md.CheckpointDirectory, "files.img"],
                 filepathJoin [md.CheckpointDirectory, "ids-"],
                 filepathJoin [md.CheckpointDirectory, "fdinfo-"]])
        ∨ (((expandShowAll f).psTreeCmd = true ∨ (expandShowAll f).psTreeEnv = true) ∧
            x ∈ [filepathJoin [md.CheckpointDirectory, "pagemap-"],
                 filepathJoin [md.CheckpointDirectory, "pages-"],
                 filepathJoin [md.CheckpointDirectory, "mm-"]])
        ∨ (((expandShowAll f).psTree = true ∨ (expandShowAll f).pID ≠ 0
              ∨ (expandShowAll f).files = true ∨ (expandShowAll f).sockets = true
              ∨ (expandShowAll f).psTreeCmd = true ∨ (expandShowAll f).psTreeEnv = true) ∧
            x ∈ [filepathJoin [md.CheckpointDirectory, "pstree.img"],
                 filepathJoin [md.CheckpointDirectory, "core-"]])) := by
  rw [inspectResolve_eq]
  generalize expandShowAll f = e
  simp only [requiredOf, List.mem_append, mem_ite_nil, psTreeStar, filesImages, socketsImages,
    memoryImages, psTreeImages, Bool.or_eq_true, bne_iff_ne, List.mem_cons, List.mem_singleton,
    List.not_mem_nil, or_false, or_assoc]

/-- C4: with `showAll` set, `inspect` builds the same list and leaves the same
flags as on the selection in which every other boolean flag is set as well, the
PID filter being the same; and with `showAll` cleared in that second selection the
list is still the same and the flags differ in `showAll` alone. -/
theorem showAll_eq_allOthersOn (md : Metadata) (f : Flags) (h : f.showAll = true) :
    inspectResolve md f = inspectResolve md (allOthersOn f)
      ∧ (inspectResolve md { allOthersOn f with showAll := false }).requiredFiles
          = (inspectResolve md f).requiredFiles
      ∧ { (inspectResolve md { allOthersOn f with showAll := false }).flags with showAll := true }
          = (inspectResolve md f).flags := by
  rcases f with ⟨stats, mounts, pID, psTree, psTreeCmd, psTreeEnv, files, sockets, showAll,
    format, showMetdata, showNetwork⟩
  simp only at h
  subst h
  simp [inspectResolve_eq, expandShowAll, allOthersOn, requiredOf, psTreeStar]

theorem showAll_eq_allOthersOn_witness :
    inspectResolve upstreamMetadata sampleAll
        = inspectResolve upstreamMetadata (allOthersOn sampleAll)
      ∧ (inspectResolve upstreamMetadata
            { allOthersOn sampleAll with showAll := false }).requiredFiles
          = (inspectResolve upstreamMetadata sampleAll).requiredFiles
      ∧ { (inspectResolve upstreamMetadata
            { allOthersOn sampleAll with showAll := false }).flags with showAll := true }
          = (inspectResolve upstreamMetadata sampleAll).flags :=
  showAll_eq_allOthersOn upstreamMetadata sampleAll (by decide)

/-- C5: running lines 116-190 of `inspect` again on the flags the first run left
gives the same list and the same flags; when `psTree` follows from another flag
the result is the same with `psTree` given or not; and under `showAll` the result
is the same whatever the other boolean flags were. -/
theorem resolve_idempotent (md : Metadata) (f : Flags) :
    inspectResolve md (inspectResolve md f).flags = inspectResolve md f
      ∧ (impliesPsTree f = true →
          inspectResolve md { f with psTree := true } = inspectResolve md { f with psTree := false })
      ∧ (∀ g : Flags, f.showAll = true → g.showAll = true → g.pID = f.pID →
          g.format = f.format → inspectResolve md g = inspectResolve md f) := by
  refine ⟨?_, ?_, ?_⟩
  · rcases f with ⟨stats, mounts, pID, psTree, psTreeCmd, psTreeEnv, files, sockets, showAll,
      format, showMetdata, showNetwork⟩
    by_cases hp : pID = 0 <;> cases showAll <;> cases psTree <;> cases files <;>
      cases sockets <;> cases psTreeCmd <;> cases psTreeEnv <;>
      simp [inspectResolve_eq, expandShowAll, requiredOf, psTreeStar, hp]
  · intro h
    rcases f with ⟨stats, mounts, pID, psTree, psTreeCmd, psTreeEnv, files, sockets, showAll,
      format, showMetdata, showNetwork⟩
    by_cases hp : pID = 0 <;> cases showAll <;> cases files <;> cases sockets <;>
      cases psTreeCmd <;> cases psTreeEnv <;>
      simp [impliesPsTree, hp] at h <;>
      simp [inspectResolve_eq, expandShowAll, requiredOf, psTreeStar, hp]
  · intro g hf hg hpid hfmt
    rcases f with ⟨stats, mounts, pID, psTree, psTreeCmd, psTreeEnv, files, sockets, showAll,
      format, showMetdata, showNetwork⟩
    rcases g with ⟨stats', mounts', pID', psTree', psTreeCmd', psTreeEnv', files', sockets',
      showAll', format', showMetdata', showNetwork'⟩
    simp only at hf hg hpid hfmt
    subst hf hg hpid hfmt
    simp [inspectResolve_eq, expandShowAll, requiredOf, psTreeStar]

theorem resolve_idempotent_witness :
    inspectResolve upstreamMetadata { sampleFiles with psTree := true }
      = inspectResolve upstreamMetadata { sampleFiles with psTree := false } :=
  (resolve_idempotent upstreamMetadata sampleFiles).2.1 (by decide)

/-- C6: when `files` is set, and when `sockets` is set, `psTree` is set after the
resolution and the list holds `pstree.img` and the prefix `core-` (under the
checkpoint directory). -/
theorem files_or_sockets_force_psTree (md : Metadata) (f : Flags)
    (h : f.files = true ∨ f.sockets = true) :
    (inspectResolve md f).flags.psTree = true
      ∧ filepathJoin [md.CheckpointDirectory, "pstree.img"] ∈ (inspectResolve md f).requiredFiles
      ∧ filepathJoin [md.CheckpointDirectory, "core-"] ∈ (inspectResolve md f).requiredFiles := by
  have hs : psTreeStar (expandShowAll f) = true := by
    rcases f with ⟨stats, mounts, pID, psTree, psTreeCmd, psTreeEnv, files, sockets, showAll,
      format, showMetdata, showNetwork⟩
    simp only at h
    cases showAll <;> rcases h with h | h <;> subst h <;> simp [expandShowAll, psTreeStar]
  rw [inspectResolve_eq]
  simp [requiredOf, hs, psTreeImages]

theorem files_or_sockets_force_psTree_witness :
    (inspectResolve upstreamMetadata sampleFiles).flags.psTree = true
      ∧ filepathJoin [upstreamMetadata.CheckpointDirectory, "pstree.img"]
          ∈ (inspectResolve upstreamMetadata sampleFiles).requiredFiles
      ∧ filepathJoin [upstreamMetadata.CheckpointDirectory, "core-"]
          ∈ (inspectResolve upstreamMetadata sampleFiles).requiredFiles :=
  files_or_sockets_force_psTree upstreamMetadata sampleFiles (Or.inl rfl)

/-- C7: with a non-zero PID filter and every boolean flag off, the list is the two
base members followed by `pstree.img` and the prefix `core-`, and nothing else. -/
theorem pid_only_members (md : Metadata) (pid : Nat) (format : String) (h : pid ≠ 0) :
    (inspectResolve md { emptyFlags format with pID := pid }).requiredFiles
      = [ md.SpecDumpFile, md.ConfigDumpFile,
          filepathJoin [md.CheckpointDirectory, "pstree.img"],
          filepathJoin [md.CheckpointDirectory, "core-"] ] := by
  simp [inspectResolve_eq, expandShowAll, emptyFlags, requiredOf, psTreeStar, psTreeImages, h]

theorem pid_only_members_witness :
    (inspectResolve upstreamMetadata { emptyFlags "tree" with pID := 42 }).requiredFiles
      = [ upstreamMetadata.SpecDumpFile, upstreamMetadata.ConfigDumpFile,
          filepathJoin [upstreamMetadata.CheckpointDirectory, "pstree.img"],
          filepathJoin [upstreamMetadata.CheckpointDirectory, "core-"] ] :=
  pid_only_members upstreamMetadata 42 "tree" (by decide)

/-- C8: lines 116-190 of `inspect` have no failing path: on every selection they
yield a list, which starts with the two base members; and on the empty selection
the list is exactly the two base members, the spec dump first. -/
theorem resolver_total_empty_selection (md : Metadata) :
    (∀ f : Flags, ∃ rest : List String,
        (inspectResolve md f).requiredFiles = md.SpecDumpFile :: md.ConfigDumpFile :: rest)
      ∧ (∀ format : String,
          (inspectResolve md (emptyFlags format)).requiredFiles
            = [md.SpecDumpFile, md.ConfigDumpFile]) := by
  refine ⟨fun f => ?_, fun format => ?_⟩
  · rw [inspectResolve_eq]
    simp [requiredOf]
  · simp [inspectResolve_eq, expandShowAll, emptyFlags, requiredOf, psTreeStar]

/-! ### Repeated entries -/

theorem ite_nil_sublist {α : Type} (c : Prop) [Decidable c] (l : List α) :
    (if c then l else []).Sublist l := by
  by_cases h : c <;> simp [h]

theorem socketsImages_sublist (md : Metadata) : (socketsImages md).Sublist (filesImages md) := by
  simp [socketsImages, filesImages]

theorem filesImages_sublist (md : Metadata) : (filesImages md).Sublist (memberNames md) := by
  have h : memberNames md = [md.SpecDumpFile, md.ConfigDumpFile, NetworkStatusFile, "stats-dump"]
      ++ filesImages md ++ (memoryImages md ++ psTreeImages md) := by
    simp [memberNames]
  rw [h]
  exact ((List.sublist_append_right _ _).trans (List.sublist_append_left _ _))

theorem filesSockets_sublist (md : Metadata) (a b : Bool) (h : ¬(a = true ∧ b = true)) :
    ((if a then filesImages md else []) ++ (if b then socketsImages md else [])).Sublist
      (filesImages md) := by
  cases a <;> cases b <;> simp at h ⊢
  exact socketsImages_sublist md

theorem requiredSansSockets_sublist (md : Metadata) (e : Flags) :
    (requiredSansSockets md e).Sublist (memberNames md) := by
  have h : memberNames md = [md.SpecDumpFile, md.ConfigDumpFile] ++ [NetworkStatusFile]
      ++ ["stats-dump"] ++ filesImages md ++ memoryImages md ++ psTreeImages md := by
    simp [memberNames]
  rw [h, requiredSansSockets]
  exact (((((List.Sublist.refl _).append (ite_nil_sublist _ _)).append
    (ite_nil_sublist _ _)).append (ite_nil_sublist _ _)).append
    (ite_nil_sublist _ _)).append (ite_nil_sublist _ _)

theorem requiredOf_sublist (md : Metadata) (e : Flags)
    (h : ¬(e.files = true ∧ e.sockets = true)) :
    (requiredOf md e).Sublist (memberNames md) := by
  have hm : memberNames md = [md.SpecDumpFile, md.ConfigDumpFile] ++ [NetworkStatusFile]
      ++ ["stats-dump"] ++ filesImages md ++ memoryImages md ++ psTreeImages md := by
    simp [memberNames]
  have hr : requiredOf md e = [md.SpecDumpFile, md.ConfigDumpFile]
      ++ (if e.showNetwork then [NetworkStatusFile] else [])
      ++ (if e.stats then ["stats-dump"] else [])
      ++ ((if e.files then filesImages md else []) ++ (if e.sockets then socketsImages md else []))
      ++ (if e.psTreeCmd || e.psTreeEnv then memoryImages md else [])
      ++ (if psTreeStar e then psTreeImages md else []) := by
    simp [requiredOf, List.append_assoc]
  rw [hm, hr]
  exact (((((List.Sublist.refl _).append (ite_nil_sublist _ _)).append
    (ite_nil_sublist _ _)).append (filesSockets_sublist md _ _ h)).append
    (ite_nil_sublist _ _)).append (ite_nil_sublist _ _)

theorem requiredOf_perm (md : Metadata) (e : Flags) :
    (requiredOf md e).Perm
      (requiredSansSockets md e ++ (if e.sockets then socketsImages md else [])) := by
  simp only [requiredOf, requiredSansSockets, List.append_assoc]
  refine List.Perm.append_left _ (List.Perm.append_left _ (List.Perm.append_left _
    (List.Perm.append_left _ ?_)))
  rw [← List.append_assoc, ← List.append_assoc]
  exact List.perm_append_comm.trans (by rw [List.append_assoc]) |>.trans
    (List.perm_append_comm.trans (by rw [List.append_assoc]))

/-- C3, as stated, fails: with `--files` and `--sockets` the list holds
`checkpoint/files.img` (and the prefixes `ids-`, `fdinfo-`) twice. -/
theorem required_files_sockets_repeats :
    ¬ (inspectResolve upstreamMetadata sampleFilesSockets).requiredFiles.Nodup := by
  decide

/-- C3, amended: the names `inspect` can add being pairwise distinct, the list has
no string twice unless `files` and `sockets` are both set (after the expansion of
`showAll`); when both are set, `files.img`, `ids-` and `fdinfo-` are on it twice
each and every other entry once. -/
theorem required_nodup_unless_files_and_sockets (md : Metadata) (f : Flags)
    (hd : (memberNames md).Nodup) :
    (¬((expandShowAll f).files = true ∧ (expandShowAll f).sockets = true) →
        (inspectResolve md f).requiredFiles.Nodup)
      ∧ ((expandShowAll f).files = true ∧ (expandShowAll f).sockets = true →
          ∀ x ∈ (inspectResolve md f).requiredFiles,
            (inspectResolve md f).requiredFiles.count x
              = if x ∈ [ filepathJoin [md.CheckpointDirectory, "files.img"],
                         filepathJoin [md.CheckpointDirectory, "ids-"],
                         filepathJoin [md.CheckpointDirectory, "fdinfo-"] ] then 2 else 1) := by
  rw [inspectResolve_eq]
  generalize expandShowAll f = e
  refine ⟨fun h => (requiredOf_sublist md e h).nodup hd, ?_⟩
  rintro ⟨hf, hs⟩ x hx
  have hx : x ∈ requiredOf md e := hx
  have hsans : (requiredSansSockets md e).Nodup := (requiredSansSockets_sublist md e).nodup hd
  have hsock : (socketsImages md).Nodup :=
    ((socketsImages_sublist md).trans (filesImages_sublist md)).nodup hd
  have hsub : ∀ y ∈ socketsImages md, y ∈ requiredSansSockets md e := by
    intro y hy
    have : y ∈ filesImages md := (socketsImages_sublist md).subset hy
    simp [requiredSansSockets, hf, this]
  have hmem : x ∈ requiredSansSockets md e := by
    have := (requiredOf_perm md e).subset hx
    rcases List.mem_append.1 this with h | h
    · exact h
    · rw [if_pos hs] at h
      exact hsub x h
  show (requiredOf md e).count x = _
  rw [(requiredOf_perm md e).count_eq, if_pos hs, List.count_append,
    List.count_eq_one_of_mem hsans hmem]
  change 1 + (socketsImages md).count x = if x ∈ socketsImages md then 2 else 1
  by_cases hxs : x ∈ socketsImages md
  · rw [List.count_eq_one_of_mem hsock hxs, if_pos hxs]
  · rw [List.count_eq_zero_of_not_mem hxs, if_neg hxs]

theorem required_nodup_unless_files_and_sockets_witness :
    (¬((expandShowAll sampleAll).files = true ∧ (expandShowAll sampleAll).sockets = true) →
        (inspectResolve upstreamMetadata sampleAll).requiredFiles.Nodup)
      ∧ ((expandShowAll sampleAll).files = true ∧ (expandShowAll sampleAll).sockets = true →
          ∀ x ∈ (inspectResolve upstreamMetadata sampleAll).requiredFiles,
            (inspectResolve upstreamMetadata sampleAll).requiredFiles.count x
              = if x ∈ [ filepathJoin [upstreamMetadata.CheckpointDirectory, "files.img"],
                         filepathJoin [upstreamMetadata.CheckpointDirectory, "ids-"],
                         filepathJoin [upstreamMetadata.CheckpointDirectory, "fdinfo-"] ]
                then 2 else 1) :=
  required_nodup_unless_files_and_sockets upstreamMetadata sampleAll (by decide)

/-! ### The single pass of `inspect` and the closure of the rule table -/

theorem mem_addMember (l : List String) (y x : String) :
    x ∈ addMember l y ↔ x ∈ l ∨ x = y := by
  unfold addMember
  by_cases h : y ∈ l
  · rw [if_pos h]
    constructor
    · exact Or.inl
    · rintro (h1 | h1)
      · exact h1
      · exact h1 ▸ h
  · rw [if_neg h]
    simp

theorem mem_addMembers (ys l : List String) (x : String) :
    x ∈ addMembers l ys ↔ x ∈ l ∨ x ∈ ys := by
  induction ys generalizing l with
  | nil => simp [addMembers]
  | cons y ys ih =>
    have h : addMembers l (y :: ys) = addMembers (addMember l y) ys := rfl
    rw [h, ih, mem_addMember, List.mem_cons, or_assoc]

theorem addMembers_eq_self (ys l : List String) (h : ∀ y ∈ ys, y ∈ l) :
    addMembers l ys = l := by
  induction ys with
  | nil => rfl
  | cons y ys ih =>
    have h1 : addMembers l (y :: ys) = addMembers (addMember l y) ys := rfl
    have h2 : addMember l y = l := by
      unfold addMember
      rw [if_pos (h y (List.mem_cons_self y ys))]
    rw [h1, h2]
    exact ih (fun z hz => h z (List.mem_cons_of_mem y hz))

theorem specFire_eq_self (r : Rule) (st : Resolution)
    (h : r.implied st.flags = st.flags ∧ ∀ y ∈ r.members, y ∈ st.requiredFiles) :
    specFire r st = st := by
  rcases st with ⟨fl, rf⟩
  simp only [specFire] at h ⊢
  rw [h.1, addMembers_eq_self _ _ h.2]

theorem specRound_eq_self (rules : List Rule) (st : Resolution)
    (h : ∀ r ∈ rules, r.Settled st) : specRound rules st = st := by
  induction rules with
  | nil => rfl
  | cons r rs ih =>
    have h1 : specRound (r :: rs) st = specRound rs (specApplyRule r st) := rfl
    have h2 : specApplyRule r st = st := by
      unfold specApplyRule
      by_cases ht : r.trigger st.flags = true
      · rw [if_pos ht]
        exact specFire_eq_self r st (h r (List.mem_cons_self r rs) ht)
      · rw [if_neg ht]
    rw [h1, h2]
    exact ih (fun q hq => h q (List.mem_cons_of_mem r hq))

theorem specRoundAtOnce_eq_self (rules : List Rule) (st : Resolution)
    (h : ∀ r ∈ rules, r.Settled st) : specRoundAtOnce rules st = st := by
  unfold specRoundAtOnce
  suffices H : ∀ (f0 : Flags), f0 = st.flags →
      rules.foldl (fun acc r => if r.trigger f0 then specFire r acc else acc) st = st from
    H st.flags rfl
  intro f0 hf0
  induction rules with
  | nil => rfl
  | cons r rs ih =>
    rw [List.foldl_cons]
    have h2 : (if r.trigger f0 = true then specFire r st else st) = st := by
      by_cases ht : r.trigger f0 = true
      · rw [if_pos ht]
        exact specFire_eq_self r st (h r (List.mem_cons_self r rs) (hf0 ▸ ht))
      · rw [if_neg ht]
    rw [h2]
    exact ih (fun q hq => h q (List.mem_cons_of_mem r hq))

theorem specClosure_eq_iterate (round : Resolution → Resolution) (k : Nat) :
    ∀ (n : Nat) (st : Resolution), round (round^[k] st) = round^[k] st → k ≤ n →
      specClosure round n st = round^[k] st := by
  induction k with
  | zero =>
    intro n st h _
    cases n with
    | zero => rfl
    | succ n =>
      simp only [Function.iterate_zero, id_eq] at h
      simp [specClosure, h]
  | succ k ih =>
    intro n st h hn
    cases n with
    | zero => omega
    | succ n =>
      rw [Function.iterate_succ_apply] at h ⊢
      by_cases hs : round st = st
      · have hfix : round^[k] st = st := Function.iterate_fixed hs k
        simp [specClosure, hs, hfix]
      · simp only [specClosure, if_neg hs]
        exact ih n (round st) h (by omega)

theorem specApplyRule_flags (r : Rule) (st : Resolution) :
    (specApplyRule r st).flags = if r.trigger st.flags then r.implied st.flags else st.flags := by
  unfold specApplyRule
  by_cases h : r.trigger st.flags = true <;> simp [h, specFire]

theorem mem_specApplyRule (r : Rule) (st : Resolution) (x : String) :
    x ∈ (specApplyRule r st).requiredFiles ↔
      x ∈ st.requiredFiles ∨ (r.trigger st.flags = true ∧ x ∈ r.members) := by
  unfold specApplyRule
  by_cases h : r.trigger st.flags = true <;> simp [h, specFire, mem_addMembers]

theorem specRound_flags (md : Metadata) (st : Resolution) :
    (specRound (specRules md) st).flags = { st.flags with psTree := psTreeStar st.flags } := by
  rcases st with ⟨⟨stats, mounts, pID, psTree, psTreeCmd, psTreeEnv, files, sockets, showAll,
    format, showMetdata, showNetwork⟩, rf⟩
  simp only [specRound, specRules, List.foldl_cons, List.foldl_nil, specApplyRule_flags]
  by_cases hp : pID = 0 <;> cases psTree <;> cases files <;>
    cases sockets <;> cases psTreeCmd <;> cases psTreeEnv <;>
    simp [psTreeStar, forcePsTree, hp]

theorem mem_specRound (md : Metadata) (st : Resolution) (x : String) :
    x ∈ (specRound (specRules md) st).requiredFiles ↔
      x ∈ st.requiredFiles ∨ x ∈ (requiredOf md st.flags).drop 2 := by
  rcases st with ⟨⟨stats, mounts, pID, psTree, psTreeCmd, psTreeEnv, files, sockets, showAll,
    format, showMetdata, showNetwork⟩, rf⟩
  simp only [specRound, specRules, List.foldl_cons, List.foldl_nil, mem_specApplyRule,
    specApplyRule_flags]
  by_cases hp : pID = 0 <;> cases psTree <;> cases files <;>
    cases sockets <;> cases psTreeCmd <;> cases psTreeEnv <;> cases showNetwork <;> cases stats <;>
    simp [psTreeStar, forcePsTree, requiredOf, hp, or_assoc]

theorem atOnce_fold_flags (md : Metadata) (f0 : Flags) (st : Resolution) :
    ((specRules md).foldl (fun acc r => if r.trigger f0 then specFire r acc else acc) st).flags
      = if f0.pID != 0 || f0.files || f0.sockets || f0.psTreeCmd || f0.psTreeEnv
        then { st.flags with psTree := true } else st.flags := by
  simp only [specRules, List.foldl_cons, List.foldl_nil]
  rcases f0 with ⟨stats, mounts, pID, psTree, psTreeCmd, psTreeEnv, files, sockets, showAll,
    format, showMetdata, showNetwork⟩
  by_cases hp : pID = 0 <;> cases psTree <;> cases files <;>
    cases sockets <;> cases psTreeCmd <;> cases psTreeEnv <;> cases showNetwork <;> cases stats <;>
    simp [specFire, forcePsTree, hp]

theorem mem_atOnce_fold (rules : List Rule) (f0 : Flags) (st : Resolution) (x : String) :
    x ∈ (rules.foldl (fun acc r => if r.trigger f0 then specFire r acc else acc) st).requiredFiles
      ↔ x ∈ st.requiredFiles ∨ ∃ r ∈ rules, r.trigger f0 = true ∧ x ∈ r.members := by
  induction rules generalizing st with
  | nil => simp
  | cons r rs ih =>
    rw [List.foldl_cons, ih]
    by_cases ht : r.trigger f0 = true
    · simp [ht, specFire, mem_addMembers, or_assoc]
    · simp [ht]

theorem specRoundAtOnce_flags (md : Metadata) (st : Resolution) :
    (specRoundAtOnce (specRules md) st).flags
      = { st.flags with psTree := psTreeStar st.flags } := by
  rw [specRoundAtOnce, atOnce_fold_flags]
  rcases st with ⟨⟨stats, mounts, pID, psTree, psTreeCmd, psTreeEnv, files, sockets, showAll,
    format, showMetdata, showNetwork⟩, rf⟩
  by_cases hp : pID = 0 <;> cases psTree <;> cases files <;>
    cases sockets <;> cases psTreeCmd <;> cases psTreeEnv <;>
    simp [psTreeStar, hp]

theorem mem_specRoundAtOnce (md : Metadata) (st : Resolution) (x : String) :
    x ∈ (specRoundAtOnce (specRules md) st).requiredFiles ↔
      x ∈ st.requiredFiles ∨ ∃ r ∈ specRules md, r.trigger st.flags = true ∧ x ∈ r.members := by
  rw [specRoundAtOnce, mem_atOnce_fold]

theorem psTreeStar_settled (e : Flags) :
    psTreeStar { e with psTree := psTreeStar e } = psTreeStar e := by
  rcases e with ⟨stats, mounts, pID, psTree, psTreeCmd, psTreeEnv, files, sockets, showAll,
    format, showMetdata, showNetwork⟩
  by_cases hp : pID = 0 <;> cases psTree <;> cases files <;>
    cases sockets <;> cases psTreeCmd <;> cases psTreeEnv <;>
    simp [psTreeStar, hp]

theorem exists_rule_iff (md : Metadata) (e : Flags) (x : String) :
    (∃ r ∈ specRules md, r.trigger e = true ∧ x ∈ r.members) ↔
      ((e.showNetwork = true ∧ x ∈ [NetworkStatusFile])
        ∨ (e.stats = true ∧ x ∈ ["stats-dump"])
        ∨ ((e.pID != 0) = true ∧ x ∈ ([] : List String))
        ∨ (e.files = true ∧ x ∈ filesImages md)
        ∨ (e.sockets = true ∧ x ∈ socketsImages md)
        ∨ ((e.psTreeCmd || e.psTreeEnv) = true ∧ x ∈ memoryImages md)
        ∨ (e.psTree = true ∧ x ∈ psTreeImages md)) := by
  simp only [specRules, List.mem_cons, List.not_mem_nil, or_false,
    exists_eq_or_imp, exists_eq_left]

theorem mem_rules_closed (md : Metadata) (e : Flags) (x : String) :
    (∃ r ∈ specRules md,
        r.trigger { e with psTree := psTreeStar e } = true ∧ x ∈ r.members)
      ↔ x ∈ (requiredOf md e).drop 2 := by
  rw [exists_rule_iff]
  simp only [requiredOf, List.cons_append, List.nil_append, List.drop_succ_cons, List.drop_zero,
    List.mem_append, mem_ite_nil, List.not_mem_nil, and_false, false_or, or_assoc]

theorem mem_rules_weaken (md : Metadata) (e : Flags) (x : String)
    (h : ∃ r ∈ specRules md, r.trigger e = true ∧ x ∈ r.members) :
    ∃ r ∈ specRules md, r.trigger { e with psTree := psTreeStar e } = true ∧ x ∈ r.members := by
  rw [exists_rule_iff] at h ⊢
  have hp : e.psTree = true → psTreeStar e = true := by
    intro h1
    simp [psTreeStar, h1]
  have hlast : e.psTree = true ∧ x ∈ psTreeImages md →
      psTreeStar e = true ∧ x ∈ psTreeImages md := And.imp hp id
  exact Or.imp_right (Or.imp_right (Or.imp_right (Or.imp_right (Or.imp_right
    (Or.imp_right hlast))))) h

theorem requiredOf_split (md : Metadata) (e : Flags) :
    requiredOf md e = md.SpecDumpFile :: md.ConfigDumpFile :: (requiredOf md e).drop 2 := by
  simp [requiredOf]

theorem mem_requiredOf_iff (md : Metadata) (e : Flags) (x : String) :
    x ∈ requiredOf md e ↔
      x ∈ [md.SpecDumpFile, md.ConfigDumpFile] ∨ x ∈ (requiredOf md e).drop 2 := by
  conv_lhs => rw [requiredOf_split]
  simp only [List.mem_cons, List.not_mem_nil, or_false, or_assoc]

theorem rules_settled (md : Metadata) (e : Flags) (st : Resolution)
    (hfl : st.flags = { e with psTree := psTreeStar e })
    (hmem : ∀ x, x ∈ (requiredOf md e).drop 2 → x ∈ st.requiredFiles) :
    ∀ r ∈ specRules md, r.Settled st := by
  intro r hr ht
  rw [hfl] at ht ⊢
  refine ⟨?_, fun y hy => hmem y ((mem_rules_closed md e y).1 ⟨r, hr, ht, hy⟩)⟩
  simp only [specRules, List.mem_cons, List.not_mem_nil, or_false] at hr
  rcases e with ⟨stats, mounts, pID, psTree, psTreeCmd, psTreeEnv, files, sockets, showAll,
    format, showMetdata, showNetwork⟩
  rcases hr with rfl | rfl | rfl | rfl | rfl | rfl | rfl
  · rfl
  · rfl
  · simp only [bne_iff_ne, ne_eq] at ht
    simp [forcePsTree, psTreeStar, ht]
  · simp only at ht
    simp [forcePsTree, psTreeStar, ht]
  · simp only at ht
    simp [forcePsTree, psTreeStar, ht]
  · simp only [Bool.or_eq_true] at ht
    rcases ht with ht | ht <;> simp [forcePsTree, psTreeStar, ht]
  · rfl

theorem specRound_start (md : Metadata) (f : Flags) :
    (specRound (specRules md) (specStart md f)).flags
        = { expandShowAll f with psTree := psTreeStar (expandShowAll f) }
      ∧ ∀ x, x ∈ (specRound (specRules md) (specStart md f)).requiredFiles
          ↔ x ∈ requiredOf md (expandShowAll f) := by
  refine ⟨?_, fun x => ?_⟩
  · rw [specRound_flags]
    rfl
  · rw [mem_specRound, mem_requiredOf_iff]
    rfl

theorem specRoundAtOnce_twice (md : Metadata) (f : Flags) :
    ((specRoundAtOnce (specRules md))^[2] (specStart md f)).flags
        = { expandShowAll f with psTree := psTreeStar (expandShowAll f) }
      ∧ ∀ x, x ∈ ((specRoundAtOnce (specRules md))^[2] (specStart md f)).requiredFiles
          ↔ x ∈ requiredOf md (expandShowAll f) := by
  have h2 : (specRoundAtOnce (specRules md))^[2] (specStart md f)
      = specRoundAtOnce (specRules md) (specRoundAtOnce (specRules md) (specStart md f)) := rfl
  rw [h2]
  have hfl1 : (specRoundAtOnce (specRules md) (specStart md f)).flags
      = { expandShowAll f with psTree := psTreeStar (expandShowAll f) } := by
    rw [specRoundAtOnce_flags]
    rfl
  refine ⟨?_, fun x => ?_⟩
  · rw [specRoundAtOnce_flags, hfl1, psTreeStar_settled]
  · rw [mem_specRoundAtOnce, hfl1, mem_rules_closed, mem_specRoundAtOnce, mem_requiredOf_iff]
    constructor
    · rintro ((h | h) | h)
      · exact Or.inl h
      · exact Or.inr ((mem_rules_closed md _ x).1 (mem_rules_weaken md _ x h))
      · exact Or.inr h
    · rintro (h | h)
      · exact Or.inl (Or.inl h)
      · exact Or.inr h

/-- C2: the flags and the set of members `inspect` reaches in its single pass are
those of the closure of the table of implication rules started from the expanded
flags and the two base members: three passes are enough to reach a state that a
further pass leaves unchanged, more passes change nothing, and this holds both
when the rules of a pass read the flags one after the other and when they all
read the flags the pass began with. In particular the entries of the `psTree` rule
are there whenever `files`, `sockets`, `psTreeCmd`, `psTreeEnv` or a non-zero PID
filter switched `psTree` on. -/
theorem single_pass_eq_closure (md : Metadata) (f : Flags) :
    (specRound (specRules md) (specResolve md f) = specResolve md f
        ∧ (∀ n, 3 ≤ n →
            specClosure (specRound (specRules md)) n (specStart md f) = specResolve md f)
        ∧ (specResolve md f).flags = (inspectResolve md f).flags
        ∧ (∀ x, x ∈ (specResolve md f).requiredFiles ↔ x ∈ (inspectResolve md f).requiredFiles))
      ∧ (specRoundAtOnce (specRules md) (specResolveAtOnce md f) = specResolveAtOnce md f
        ∧ (∀ n, 3 ≤ n →
            specClosure (specRoundAtOnce (specRules md)) n (specStart md f)
              = specResolveAtOnce md f)
        ∧ (specResolveAtOnce md f).flags = (inspectResolve md f).flags
        ∧ (∀ x, x ∈ (specResolveAtOnce md f).requiredFiles
            ↔ x ∈ (inspectResolve md f).requiredFiles))
      ∧ ((f.files = true ∨ f.sockets = true ∨ f.psTreeCmd = true ∨ f.psTreeEnv = true
            ∨ f.pID ≠ 0) →
          (inspectResolve md f).flags.psTree = true
            ∧ filepathJoin [md.CheckpointDirectory, "pstree.img"]
                ∈ (inspectResolve md f).requiredFiles
            ∧ filepathJoin [md.CheckpointDirectory, "core-"]
                ∈ (inspectResolve md f).requiredFiles) := by
  refine ⟨?_, ?_, ?_⟩
  · obtain ⟨hfl, hmem⟩ := specRound_start md f
    have hfix : specRound (specRules md) ((specRound (specRules md))^[1] (specStart md f))
        = (specRound (specRules md))^[1] (specStart md f) :=
      specRound_eq_self _ _
        (rules_settled md (expandShowAll f) _ hfl
          (fun x hx => (hmem x).2 ((mem_requiredOf_iff md _ x).2 (Or.inr hx))))
    have hcl : ∀ n, 1 ≤ n → specClosure (specRound (specRules md)) n (specStart md f)
        = specRound (specRules md) (specStart md f) :=
      fun n hn => specClosure_eq_iterate _ 1 n _ hfix hn
    have h3 : specResolve md f = specRound (specRules md) (specStart md f) :=
      hcl 3 (by omega)
    rw [h3, inspectResolve_eq]
    exact ⟨hfix, fun n hn => hcl n (by omega), hfl, hmem⟩
  · obtain ⟨hfl, hmem⟩ := specRoundAtOnce_twice md f
    have hfix : specRoundAtOnce (specRules md)
          ((specRoundAtOnce (specRules md))^[2] (specStart md f))
        = (specRoundAtOnce (specRules md))^[2] (specStart md f) :=
      specRoundAtOnce_eq_self _ _
        (rules_settled md (expandShowAll f) _ hfl
          (fun x hx => (hmem x).2 ((mem_requiredOf_iff md _ x).2 (Or.inr hx))))
    have hcl : ∀ n, 2 ≤ n → specClosure (specRoundAtOnce (specRules md)) n (specStart md f)
        = (specRoundAtOnce (specRules md))^[2] (specStart md f) :=
      fun n hn => specClosure_eq_iterate _ 2 n _ hfix hn
    have h3 : specResolveAtOnce md f = (specRoundAtOnce (specRules md))^[2] (specStart md f) :=
      hcl 3 (by omega)
    rw [h3, inspectResolve_eq]
    exact ⟨hfix, fun n hn => hcl n (by omega), hfl, hmem⟩
  · intro h
    have hs : psTreeStar (expandShowAll f) = true := by
      rcases f with ⟨stats, mounts, pID, psTree, psTreeCmd, psTreeEnv, files, sockets, showAll,
        format, showMetdata, showNetwork⟩
      simp only at h
      cases showAll
      · rcases h with h | h | h | h | h <;> simp [expandShowAll, psTreeStar, h]
      · simp [expandShowAll, psTreeStar]
    rw [inspectResolve_eq]
    simp [requiredOf, hs, psTreeImages]

theorem single_pass_eq_closure_witness :
    (inspectResolve upstreamMetadata sampleFilesSockets).flags.psTree = true
      ∧ filepathJoin [upstreamMetadata.CheckpointDirectory, "pstree.img"]
          ∈ (inspectResolve upstreamMetadata sampleFilesSockets).requiredFiles
      ∧ filepathJoin [upstreamMetadata.CheckpointDirectory, "core-"]
          ∈ (inspectResolve upstreamMetadata sampleFilesSockets).requiredFiles :=
  (single_pass_eq_closure upstreamMetadata sampleFilesSockets).2.2 (Or.inl rfl)

/-! ### `FormatNetworkInfo` -/

theorem foldl_appendSubnet (subnets : List NetworkSubnet) (result : String) :
    subnets.foldl appendSubnet result = result ++ concatAll (subnets.map subnetLines) := by
  induction subnets generalizing result with
  | nil => simp [concatAll]
  | cons s rest ih =>
    rw [List.foldl_cons, ih]
    simp only [appendSubnet, subnetLines, concatAll, List.map_cons, String.append_assoc]

theorem appendInterface_eq (result : String) (entry : String × NetworkInterface) :
    appendInterface result entry = result ++ interfaceBlock entry := by
  simp only [appendInterface, interfaceBlock, foldl_appendSubnet, String.append_assoc]

theorem foldl_appendInterface (entries : List (String × NetworkInterface)) (result : String) :
    entries.foldl appendInterface result = result ++ concatAll (entries.map interfaceBlock) := by
  induction entries generalizing result with
  | nil => simp [concatAll]
  | cons e rest ih =>
    rw [List.foldl_cons, ih, appendInterface_eq]
    simp only [concatAll, List.map_cons, String.append_assoc]

/-- C9: `FormatNetworkInfo` returns "No network interfaces found" on nil, and on
every record whose map of interfaces is nil or holds no entry, whatever the order
of the `range`. -/
theorem FormatNetworkInfo_none_or_empty (order : RangeOrder) :
    FormatNetworkInfo order none = "No network interfaces found"
      ∧ FormatNetworkInfo order (some { Podman := { Interfaces := none } })
          = "No network interfaces found"
      ∧ FormatNetworkInfo order (some { Podman := { Interfaces := some [] } })
          = "No network interfaces found"
      ∧ ∀ ns : PodmanNetworkStatus, ns.Podman.Interfaces.entries = [] →
          FormatNetworkInfo order (some ns) = "No network interfaces found" := by
  refine ⟨rfl, rfl, rfl, ?_⟩
  rintro ⟨⟨m⟩⟩ h
  cases m with
  | none => rfl
  | some entries =>
    simp only [InterfaceMap.entries] at h
    subst h
    rfl

theorem FormatNetworkInfo_none_or_empty_witness :
    FormatNetworkInfo RangeOrder.listed (some { Podman := { Interfaces := some [] } })
      = "No network interfaces found" :=
  (FormatNetworkInfo_none_or_empty RangeOrder.listed).2.2.2
    { Podman := { Interfaces := some [] } } rfl

theorem FormatNetworkInfo_of_pos (order : RangeOrder) (ns : PodmanNetworkStatus)
    (h : 0 < ns.Podman.Interfaces.len) :
    FormatNetworkInfo order (some ns)
      = concatAll ((order.visit ns.Podman.Interfaces.entries).map interfaceBlock) := by
  have h0 : ¬ ns.Podman.Interfaces.len = 0 := by omega
  simp only [FormatNetworkInfo, if_neg h0, foldl_appendInterface, String.empty_append]

theorem FormatNetworkInfo_single (order : RangeOrder) (ns : PodmanNetworkStatus)
    (entry : String × NetworkInterface) (h : ns.Podman.Interfaces = some [entry]) :
    FormatNetworkInfo order (some ns) = interfaceBlock entry := by
  have hpos : 0 < ns.Podman.Interfaces.len := by
    rw [h]
    exact Nat.one_pos
  have hv : order.visit [entry] = [entry] := List.perm_singleton.1 (order.visit_perm [entry])
  rw [FormatNetworkInfo_of_pos order ns hpos, h]
  simp only [InterfaceMap.entries, hv, List.map_cons, List.map_nil, concatAll,
    String.append_empty]

/-- C10: on a record with at least one interface `FormatNetworkInfo` returns the
blocks of the interfaces, concatenated in the order in which the `range` visits
them, each interface once; a block is "Interface: name", "  MAC Address: mac",
then for each subnet in the order of the slice "  IP/Subnet: ipnet" and
"  Gateway: gateway", each ended by a newline, then an empty line. With one
interface the result is its block, and for eth0 of the test it is the string the
test expects. -/
theorem FormatNetworkInfo_blocks (order : RangeOrder) (ns : PodmanNetworkStatus)
    (h : 0 < ns.Podman.Interfaces.len) :
    FormatNetworkInfo order (some ns)
        = concatAll ((order.visit ns.Podman.Interfaces.entries).map
            (fun entry =>
              "Interface: " ++ entry.1 ++ "\n" ++ "  MAC Address: " ++ entry.2.MacAddress ++ "\n"
                ++ concatAll (entry.2.Subnets.map
                    (fun subnet =>
                      "  IP/Subnet: " ++ subnet.IPNet ++ "\n"
                        ++ "  Gateway: " ++ subnet.Gateway ++ "\n"))
                ++ "\n"))
      ∧ (order.visit ns.Podman.Interfaces.entries).Perm ns.Podman.Interfaces.entries
      ∧ (ns.Podman.Interfaces.WellFormed →
          ((order.visit ns.Podman.Interfaces.entries).map Prod.fst).Nodup)
      ∧ (∀ entry, ns.Podman.Interfaces = some [entry] →
          FormatNetworkInfo order (some ns) = interfaceBlock entry)
      ∧ FormatNetworkInfo order (some eth0Status)
          = "Interface: eth0\n  MAC Address: f2:99:8d:fb:5a:57\n  IP/Subnet: 10.88.0.9/16\n  Gateway: 10.88.0.1\n\n" := by
  refine ⟨FormatNetworkInfo_of_pos order ns h, order.visit_perm _, fun hw => ?_,
    fun entry he => FormatNetworkInfo_single order ns entry he, ?_⟩
  · exact ((order.visit_perm _).map Prod.fst).nodup_iff.2 hw
  · rw [FormatNetworkInfo_single order eth0Status _ rfl]
    decide

theorem FormatNetworkInfo_blocks_witness :
    FormatNetworkInfo RangeOrder.listed (some eth0Status)
      = "Interface: eth0\n  MAC Address: f2:99:8d:fb:5a:57\n  IP/Subnet: 10.88.0.9/16\n  Gateway: 10.88.0.1\n\n" :=
  (FormatNetworkInfo_blocks RangeOrder.listed eth0Status (by decide)).2.2.2.2

/-- C11, as stated, fails: on a record with two interfaces the text is not the
same when the `range` visits the entries in the listed order and in the opposite
order. -/
theorem FormatNetworkInfo_order_matters :
    FormatNetworkInfo RangeOrder.listed (some twoInterfaces)
      ≠ FormatNetworkInfo RangeOrder.reversed (some twoInterfaces) := by
  decide

/-- C11, amended: the text depends on the record and on the order in which the
`range` visits the entries of the map, and on nothing else; two runs that visit
the entries in the same order give the same text, and on nil and on a record with
at most one interface the text does not depend on the order at all. -/
theorem FormatNetworkInfo_deterministic_up_to_order (o₁ o₂ : RangeOrder) :
    FormatNetworkInfo o₁ none = FormatNetworkInfo o₂ none
      ∧ ∀ ns : PodmanNetworkStatus,
          (o₁.visit ns.Podman.Interfaces.entries = o₂.visit ns.Podman.Interfaces.entries →
            FormatNetworkInfo o₁ (some ns) = FormatNetworkInfo o₂ (some ns))
          ∧ (ns.Podman.Interfaces.len ≤ 1 →
            FormatNetworkInfo o₁ (some ns) = FormatNetworkInfo o₂ (some ns)) := by
  refine ⟨rfl, fun ns => ⟨fun h => ?_, fun h => ?_⟩⟩
  · simp only [FormatNetworkInfo, h]
  · rcases ns with ⟨⟨m⟩⟩
    cases m with
    | none => rfl
    | some entries =>
      match entries, h with
      | [], _ => rfl
      | [entry], _ =>
        rw [FormatNetworkInfo_single o₁ _ entry rfl, FormatNetworkInfo_single o₂ _ entry rfl]
      | _ :: _ :: _, h =>
        simp [InterfaceMap.len] at h

theorem FormatNetworkInfo_deterministic_up_to_order_witness :
    FormatNetworkInfo RangeOrder.listed (some eth0Status)
      = FormatNetworkInfo RangeOrder.reversed (some eth0Status) :=
  ((FormatNetworkInfo_deterministic_up_to_order RangeOrder.listed RangeOrder.reversed).2
    eth0Status).2 (by decide)

/-! ### Monotonicity and independence of the list -/

theorem ite_sublist_ite {α : Type} (p q : Prop) [Decidable p] [Decidable q] (l : List α)
    (h : p → q) : (if p then l else []).Sublist (if q then l else []) := by
  by_cases hp : p
  · rw [if_pos hp, if_pos (h hp)]
  · rw [if_neg hp]
    exact List.nil_sublist _

theorem requiredOf_mono (md : Metadata) (e₁ e₂ : Flags)
    (hn : e₁.showNetwork = true → e₂.showNetwork = true)
    (hs : e₁.stats = true → e₂.stats = true)
    (hf : e₁.files = true → e₂.files = true)
    (hk : e₁.sockets = true → e₂.sockets = true)
    (hm : (e₁.psTreeCmd || e₁.psTreeEnv) = true → (e₂.psTreeCmd || e₂.psTreeEnv) = true)
    (ht : psTreeStar e₁ = true → psTreeStar e₂ = true) :
    (requiredOf md e₁).Sublist (requiredOf md e₂) := by
  unfold requiredOf
  exact ((((((List.Sublist.refl _).append (ite_sublist_ite _ _ _ hn)).append
    (ite_sublist_ite _ _ _ hs)).append (ite_sublist_ite _ _ _ hf)).append
    (ite_sublist_ite _ _ _ hk)).append (ite_sublist_ite _ _ _ hm)).append
    (ite_sublist_ite _ _ _ ht)

theorem expandShowAll_of_showAll (f : Flags) (h : f.showAll = true) :
    (expandShowAll f).showNetwork = true ∧ (expandShowAll f).stats = true
      ∧ (expandShowAll f).files = true ∧ (expandShowAll f).sockets = true
      ∧ (expandShowAll f).psTreeCmd = true ∧ psTreeStar (expandShowAll f) = true := by
  simp [expandShowAll, h, psTreeStar]

theorem expandShowAll_of_not_showAll (f : Flags) (h : f.showAll = false) :
    expandShowAll f = f := by
  simp [expandShowAll, h]

theorem psTreeStar_mono (a b : Flags)
    (hp : a.pID ≠ 0 → b.pID ≠ 0) (ht : a.psTree = true → b.psTree = true)
    (hc : a.psTreeCmd = true → b.psTreeCmd = true) (he : a.psTreeEnv = true → b.psTreeEnv = true)
    (hf : a.files = true → b.files = true) (hk : a.sockets = true → b.sockets = true) :
    psTreeStar a = true → psTreeStar b = true := by
  simp only [psTreeStar, Bool.or_eq_true, bne_iff_ne]
  rintro (((((h | h) | h) | h) | h) | h)
  · simp [ht h]
  · simp [hp h]
  · simp [hf h]
  · simp [hk h]
  · simp [hc h]
  · simp [he h]

theorem cmdEnv_mono (a b : Flags)
    (hc : a.psTreeCmd = true → b.psTreeCmd = true) (he : a.psTreeEnv = true → b.psTreeEnv = true) :
    (a.psTreeCmd || a.psTreeEnv) = true → (b.psTreeCmd || b.psTreeEnv) = true := by
  simp only [Bool.or_eq_true]
  exact Or.imp hc he

theorem requiredOf_expand_mono (md : Metadata) (a b : Flags) (h : a.Below b) :
    (requiredOf md (expandShowAll a)).Sublist (requiredOf md (expandShowAll b)) := by
  obtain ⟨hs, _, hp, ht, hc, he, hf, hk, ha, _, hn⟩ := h
  by_cases hb : b.showAll = true
  · obtain ⟨b1, b2, b3, b4, b5, b6⟩ := expandShowAll_of_showAll b hb
    exact requiredOf_mono md _ _ (fun _ => b1) (fun _ => b2) (fun _ => b3) (fun _ => b4)
      (fun _ => by simp [b5]) (fun _ => b6)
  · have hb' : b.showAll = false := by simpa using hb
    have ha' : a.showAll = false := by
      cases hx : a.showAll
      · rfl
      · exact absurd (ha hx) hb
    rw [expandShowAll_of_not_showAll a ha', expandShowAll_of_not_showAll b hb']
    exact requiredOf_mono md a b hn hs hf hk (cmdEnv_mono a b hc he)
      (psTreeStar_mono a b hp ht hc he hf hk)

theorem requiredOf_showAll_length (md : Metadata) (g : Flags) (h : g.showAll = true) :
    (requiredOf md (expandShowAll g)).length = 16 := by
  obtain ⟨b1, b2, b3, b4, b5, b6⟩ := expandShowAll_of_showAll g h
  simp [requiredOf, b1, b2, b3, b4, b5, b6, filesImages, socketsImages, memoryImages,
    psTreeImages]

/-- C19: the list grows with the selection: when every boolean flag set in `a` is
set in `b` and `b` has a PID filter if `a` has one, the list for `a` is the list
for `b` with some entries left out, the order kept. Every list starts with the two
base members, and is the list of any selection with `showAll`, which has 16
entries, with some entries left out. -/
theorem required_monotone (md : Metadata) (a : Flags) :
    (∀ b : Flags, a.Below b →
        (inspectResolve md a).requiredFiles.Sublist (inspectResolve md b).requiredFiles)
      ∧ (∃ rest : List String,
          (inspectResolve md a).requiredFiles = md.SpecDumpFile :: md.ConfigDumpFile :: rest)
      ∧ (∀ g : Flags, g.showAll = true →
          (inspectResolve md a).requiredFiles.Sublist (inspectResolve md g).requiredFiles
            ∧ (inspectResolve md g).requiredFiles.length = 16) := by
  refine ⟨fun b h => ?_, ?_, fun g hg => ⟨?_, ?_⟩⟩
  · rw [inspectResolve_eq, inspectResolve_eq]
    exact requiredOf_expand_mono md a b h
  · rw [inspectResolve_eq]
    exact ⟨_, requiredOf_split md _⟩
  · rw [inspectResolve_eq, inspectResolve_eq]
    obtain ⟨b1, b2, b3, b4, b5, b6⟩ := expandShowAll_of_showAll g hg
    exact requiredOf_mono md _ _ (fun _ => b1) (fun _ => b2) (fun _ => b3) (fun _ => b4)
      (fun _ => by simp [b5]) (fun _ => b6)
  · rw [inspectResolve_eq]
    exact requiredOf_showAll_length md g hg

theorem required_monotone_witness :
    (inspectResolve upstreamMetadata sampleFiles).requiredFiles.Sublist
      (inspectResolve upstreamMetadata sampleAll).requiredFiles
      ∧ (inspectResolve upstreamMetadata sampleAll).requiredFiles.length = 16 :=
  (required_monotone upstreamMetadata sampleFiles).2.2 sampleAll rfl

/-- C20: the list does not depend on `mounts`, on `showMetdata` or on the output
format, and depends on the PID filter only through its being zero or not: two
selections that agree on `showAll`, `stats`, `psTree`, `psTreeCmd`, `psTreeEnv`,
`files`, `sockets`, `showNetwork` and on whether the PID filter is zero give the
same list. -/
theorem required_depends_on_views_only (md : Metadata) (a b : Flags) (h : a.SameViews b) :
    (inspectResolve md a).requiredFiles = (inspectResolve md b).requiredFiles := by
  rcases a with ⟨stats, mounts, pID, psTree, psTreeCmd, psTreeEnv, files, sockets, showAll,
    format, showMetdata, showNetwork⟩
  rcases b with ⟨stats', mounts', pID', psTree', psTreeCmd', psTreeEnv', files', sockets',
    showAll', format', showMetdata', showNetwork'⟩
  simp only [Flags.SameViews] at h
  obtain ⟨h1, h2, h3, h4, h5, h6, h7, h8, h9⟩ := h
  subst h1 h2 h3 h4 h5 h6 h7 h8
  have hpid : (pID != 0) = (pID' != 0) := by
    by_cases hp : pID = 0
    · have hq : pID' = 0 := by
        by_contra hc
        exact (h9.2 hc) hp
      rw [hp, hq]
    · rw [bne_iff_ne.2 hp, bne_iff_ne.2 (h9.1 hp)]
  rw [inspectResolve_eq, inspectResolve_eq]
  cases showAll <;> simp [expandShowAll, requiredOf, psTreeStar, hpid]

theorem required_depends_on_views_only_witness :
    (inspectResolve upstreamMetadata sampleStats).requiredFiles
      = (inspectResolve upstreamMetadata sampleStatsTree).requiredFiles :=
  required_depends_on_views_only upstreamMetadata sampleStats sampleStatsTree
    (by simp [Flags.SameViews, sampleStats, sampleStatsTree, emptyFlags])

/-! ### The run of `inspect` -/

theorem inspectResolve_format (md : Metadata) (f : Flags) :
    (inspectResolve md f).flags.format = f.format := by
  rw [inspectResolve_eq]
  unfold expandShowAll
  by_cases h : f.showAll = true <;> simp [h]

theorem inspectResolve_showNetwork (md : Metadata) (f : Flags) :
    (inspectResolve md f).flags.showNetwork = (expandShowAll f).showNetwork := by
  rw [inspectResolve_eq]

theorem inspect_of_error (env : Collaborators) (md : Metadata) (args : List String) (f : Flags)
    (e : GoError) (h : env.CreateTasks args (inspectResolve md f).requiredFiles = .error e) :
    inspect env md args f =
      { flags := (inspectResolve md f).flags
        trace := [.createTasks args (inspectResolve md f).requiredFiles]
        err := some e } := by
  simp only [inspect, h]

theorem inspect_of_ok (env : Collaborators) (md : Metadata) (args : List String) (f : Flags)
    (tasks : List Task) (h : env.CreateTasks args (inspectResolve md f).requiredFiles = .ok tasks) :
    inspect env md args f =
      { flags := (inspectResolve md f).flags
        trace := [.createTasks args (inspectResolve md f).requiredFiles]
          ++ (if (expandShowAll f).showNetwork then networkLoop env tasks else [])
          ++ (renderDispatch env f.format tasks).1 ++ [.cleanupTasks tasks]
        err := (renderDispatch env f.format tasks).2 } := by
  simp only [inspect, h, inspectResolve_format, inspectResolve_showNetwork]

/-- The text `inspect` prints for one task when `--network` is given. -/
theorem networkStep_eq (env : Collaborators) (task : Task) :
    networkStep env task =
      [ .readNetworkStatus task.Dir,
        .printed
          (match env.ReadJSONFile task.Dir NetworkStatusFile with
            | .ok (ns, _) =>
              "\nNetwork Information for " ++ task.Dir ++ ":\n"
                ++ FormatNetworkInfo env.rangeOrder (some ns)
            | .error e =>
              "Warning: Failed to read network information from " ++ "" ++ ": "
                ++ ("failed to read network status: " ++ e.Error) ++ "\n") ] := by
  unfold networkStep ReadNetworkStatus
  cases h : env.ReadJSONFile task.Dir NetworkStatusFile with
  | error e => simp [errorfWrap, GoError.Error]
  | ok r => simp

theorem readsOf_networkLoop (env : Collaborators) (tasks : List Task) :
    readsOf (networkLoop env tasks) = tasks.map Task.Dir := by
  induction tasks with
  | nil => rfl
  | cons task rest ih =>
    have h : readsOf (networkLoop env (task :: rest))
        = readsOf (networkStep env task) ++ readsOf (networkLoop env rest) := by
      simp only [networkLoop, readsOf, List.filterMap_append]
    rw [h, ih, networkStep_eq]
    rfl

theorem printsOf_networkLoop (env : Collaborators) (tasks : List Task) :
    printsOf (networkLoop env tasks) =
      tasks.map fun task =>
        match env.ReadJSONFile task.Dir NetworkStatusFile with
        | .ok (ns, _) =>
          "\nNetwork Information for " ++ task.Dir ++ ":\n"
            ++ FormatNetworkInfo env.rangeOrder (some ns)
        | .error e =>
          "Warning: Failed to read network information from " ++ "" ++ ": "
            ++ ("failed to read network status: " ++ e.Error) ++ "\n" := by
  induction tasks with
  | nil => rfl
  | cons task rest ih =>
    have h : printsOf (networkLoop env (task :: rest))
        = printsOf (networkStep env task) ++ printsOf (networkLoop env rest) := by
      simp only [networkLoop, printsOf, List.filterMap_append]
    rw [h, ih, networkStep_eq]
    rfl

theorem rendersOf_networkLoop (env : Collaborators) (tasks : List Task) :
    rendersOf (networkLoop env tasks) = [] := by
  induction tasks with
  | nil => rfl
  | cons task rest ih =>
    have h : rendersOf (networkLoop env (task :: rest))
        = rendersOf (networkStep env task) ++ rendersOf (networkLoop env rest) := by
      simp only [networkLoop, rendersOf, List.filter_append]
    rw [h, ih, networkStep_eq]
    rfl

theorem cleanupsOf_networkLoop (env : Collaborators) (tasks : List Task) :
    cleanupsOf (networkLoop env tasks) = [] := by
  induction tasks with
  | nil => rfl
  | cons task rest ih =>
    have h : cleanupsOf (networkLoop env (task :: rest))
        = cleanupsOf (networkStep env task) ++ cleanupsOf (networkLoop env rest) := by
      simp only [networkLoop, cleanupsOf, List.filterMap_append]
    rw [h, ih, networkStep_eq]
    rfl

theorem createsOf_networkLoop (env : Collaborators) (tasks : List Task) :
    createsOf (networkLoop env tasks) = [] := by
  induction tasks with
  | nil => rfl
  | cons task rest ih =>
    have h : createsOf (networkLoop env (task :: rest))
        = createsOf (networkStep env task) ++ createsOf (networkLoop env rest) := by
      simp only [networkLoop, createsOf, List.filterMap_append]
    rw [h, ih, networkStep_eq]
    rfl

theorem renderDispatch_events (env : Collaborators) (format : String) (tasks : List Task) :
    readsOf (renderDispatch env format tasks).1 = []
      ∧ printsOf (renderDispatch env format tasks).1 = []
      ∧ cleanupsOf (renderDispatch env format tasks).1 = []
      ∧ createsOf (renderDispatch env format tasks).1 = []
      ∧ rendersOf (renderDispatch env format tasks).1 = (renderDispatch env format tasks).1 := by
  unfold renderDispatch
  by_cases h1 : format = "tree"
  · simp [h1, readsOf, printsOf, cleanupsOf, createsOf, rendersOf]
  · by_cases h2 : format = "json"
    · simp [h1, h2, readsOf, printsOf, cleanupsOf, createsOf, rendersOf]
    · simp [h1, h2, readsOf, printsOf, cleanupsOf, createsOf, rendersOf]

theorem trace_projections (env : Collaborators) (md : Metadata) (args : List String)
    (f : Flags) (tasks : List Task)
    (h : env.CreateTasks args (inspectResolve md f).requiredFiles = .ok tasks) :
    readsOf (inspect env md args f).trace
        = readsOf (if (expandShowAll f).showNetwork then networkLoop env tasks else [])
      ∧ printsOf (inspect env md args f).trace
        = printsOf (if (expandShowAll f).showNetwork then networkLoop env tasks else [])
      ∧ rendersOf (inspect env md args f).trace = (renderDispatch env f.format tasks).1
      ∧ cleanupsOf (inspect env md args f).trace = [tasks]
      ∧ createsOf (inspect env md args f).trace
        = [(args, (inspectResolve md f).requiredFiles)] := by
  obtain ⟨d1, d2, d3, d4, d5⟩ := renderDispatch_events env f.format tasks
  have hl : rendersOf (if (expandShowAll f).showNetwork then networkLoop env tasks else []) = []
      ∧ cleanupsOf (if (expandShowAll f).showNetwork then networkLoop env tasks else []) = []
      ∧ createsOf (if (expandShowAll f).showNetwork then networkLoop env tasks else []) = [] := by
    by_cases hn : (expandShowAll f).showNetwork = true
    · simp only [hn, if_true]
      exact ⟨rendersOf_networkLoop env tasks, cleanupsOf_networkLoop env tasks,
        createsOf_networkLoop env tasks⟩
    · simp only [hn]
      exact ⟨rfl, rfl, rfl⟩
  obtain ⟨l1, l2, l3⟩ := hl
  rw [inspect_of_ok env md args f tasks h]
  refine ⟨?_, ?_, ?_, ?_, ?_⟩
  · simp only [readsOf, List.filterMap_append] at d1 ⊢
    rw [d1]
    simp
  · simp only [printsOf, List.filterMap_append] at d2 ⊢
    rw [d2]
    simp
  · simp only [rendersOf, List.filter_append] at d5 l1 ⊢
    rw [d5, l1]
    simp
  · simp only [cleanupsOf, List.filterMap_append] at d3 l2 ⊢
    rw [d3, l2]
    simp
  · simp only [createsOf, List.filterMap_append] at d4 l3 ⊢
    rw [d4, l3]
    simp

/-! ### The decoder of the network status and the grammar of JSON -/

theorem jsonSkip_length_le (cs : List Char) : (jsonSkip cs).length ≤ cs.length := by
  induction cs with
  | nil => simp [jsonSkip]
  | cons c cs ih =>
    unfold jsonSkip
    split
    · exact Nat.le_succ_of_le ih
    · exact Nat.le_refl _

theorem jsonSkip_cons_length {cs rest : List Char} {c : Char} (h : jsonSkip cs = c :: rest) :
    rest.length < cs.length := by
  have h1 := jsonSkip_length_le cs
  rw [h] at h1
  exact h1

theorem nextUnicodeEscape_length {cs rest : List Char} {u : Nat}
    (h : nextUnicodeEscape cs = some (u, rest)) : rest.length < cs.length := by
  unfold nextUnicodeEscape at h
  split at h
  · split at h
    · split at h
      · exact absurd h (by simp)
      · simp only [Option.some.injEq, Prod.mk.injEq] at h
        rw [← h.2]
        simp only [List.length_cons]
        omega
    · exact absurd h (by simp)
  · exact absurd h (by simp)

theorem unicodeStep_length {cs rest : List Char} {r : Option Char}
    (h : unicodeStep cs = some (r, rest)) : rest.length < cs.length := by
  unfold unicodeStep at h
  split at h
  · rename_i a b c d tail
    split at h
    · exact absurd h (by simp)
    · split at h
      · simp only [Option.some.injEq, Prod.mk.injEq] at h
        rw [← h.2]
        simp only [List.length_cons]
        omega
      · split at h
        · simp only [Option.some.injEq, Prod.mk.injEq] at h
          rw [← h.2]
          simp only [List.length_cons]
          omega
        · rename_i v tail' hv
          have hl := nextUnicodeEscape_length hv
          split at h
          · simp only [Option.some.injEq, Prod.mk.injEq] at h
            rw [← h.2]
            simp only [List.length_cons]
            omega
          · simp only [Option.some.injEq, Prod.mk.injEq] at h
            rw [← h.2]
            simp only [List.length_cons]
            omega
  · exact absurd h (by simp)

theorem stringStep_length {cs rest : List Char} {r : Option Char}
    (h : stringStep cs = some (r, rest)) : rest.length < cs.length := by
  unfold stringStep at h
  split at h
  · exact absurd h (by simp)
  · rename_i c tail
    split at h
    · simp only [Option.some.injEq, Prod.mk.injEq] at h
      rw [← h.2]
      simp
    · split at h
      · split at h
        · exact absurd h (by simp)
        · rename_i e tail'
          split at h
          · have := unicodeStep_length h
            simp only [List.length_cons]
            omega
          · split at h
            · exact absurd h (by simp)
            · simp only [Option.some.injEq, Prod.mk.injEq] at h
              rw [← h.2]
              simp only [List.length_cons]
              omega
      · split at h
        · exact absurd h (by simp)
        · simp only [Option.some.injEq, Prod.mk.injEq] at h
          rw [← h.2]
          simp

theorem jsonStringLoop_length (fuel : Nat) :
    ∀ {cs s rest : List Char}, jsonStringLoop fuel cs = some (s, rest) →
      rest.length < cs.length := by
  induction fuel with
  | zero =>
    intro cs s rest h
    simp [jsonStringLoop] at h
  | succ fuel ih =>
    intro cs s rest h
    unfold jsonStringLoop at h
    split at h
    · exact absurd h (by simp)
    · rename_i tail hstep
      simp only [Option.some.injEq, Prod.mk.injEq] at h
      rw [← h.2]
      exact stringStep_length hstep
    · rename_i ch tail hstep
      have h1 := stringStep_length hstep
      split at h
      · exact absurd h (by simp)
      · rename_i s' rest' hloop
        simp only [Option.some.injEq, Prod.mk.injEq] at h
        have h2 := ih hloop
        rw [← h.2]
        omega

theorem jsonString_length {cs s rest : List Char} (h : jsonString cs = some (s, rest)) :
    rest.length < cs.length :=
  jsonStringLoop_length cs.length h

theorem dropWord_length (w : List Char) :
    ∀ {cs rest : List Char}, dropWord w cs = some rest → rest.length + w.length = cs.length := by
  induction w with
  | nil =>
    intro cs rest h
    simp only [dropWord, Option.some.injEq] at h
    simp [h]
  | cons a w ih =>
    intro cs rest h
    cases cs with
    | nil => simp [dropWord] at h
    | cons c cs =>
      unfold dropWord at h
      split at h
      · have := ih h
        simp only [List.length_cons]
        omega
      · exact absurd h (by simp)

theorem length_dropDigits (cs : List Char) :
    (cs.dropWhile Char.isDigit).length ≤ cs.length :=
  (List.dropWhile_sublist Char.isDigit).length_le

theorem dropDigits1_length {cs rest : List Char} (h : dropDigits1 cs = some rest) :
    rest.length < cs.length := by
  cases cs with
  | nil => simp [dropDigits1] at h
  | cons c cs =>
    simp only [dropDigits1] at h
    by_cases hd : c.isDigit = true
    · rw [if_pos hd, Option.some.injEq] at h
      rw [← h]
      exact Nat.lt_succ_of_le (length_dropDigits cs)
    · rw [if_neg hd] at h
      exact absurd h (by simp)

theorem dropSign_length (cs : List Char) : (dropSign cs).length ≤ cs.length := by
  cases cs with
  | nil => simp [dropSign]
  | cons c cs =>
    simp only [dropSign]
    by_cases hc : c = '-'
    · rw [if_pos hc]
      exact Nat.le_succ _
    · rw [if_neg hc]

theorem dropInt_length {cs rest : List Char} (h : dropInt cs = some rest) :
    rest.length < cs.length := by
  cases cs with
  | nil => simp [dropInt] at h
  | cons c cs =>
    simp only [dropInt] at h
    by_cases hz : c = '0'
    · rw [if_pos hz, Option.some.injEq] at h
      rw [← h]
      exact Nat.lt_succ_self _
    · rw [if_neg hz] at h
      by_cases hd : c.isDigit = true
      · rw [if_pos hd, Option.some.injEq] at h
        rw [← h]
        exact Nat.lt_succ_of_le (length_dropDigits cs)
      · rw [if_neg hd] at h
        exact absurd h (by simp)

theorem dropFrac_length {cs rest : List Char} (h : dropFrac cs = some rest) :
    rest.length ≤ cs.length := by
  cases cs with
  | nil =>
    simp only [dropFrac, Option.some.injEq] at h
    rw [← h]
  | cons c cs =>
    simp only [dropFrac] at h
    by_cases hp : c = '.'
    · rw [if_pos hp] at h
      exact Nat.le_succ_of_le (Nat.le_of_lt (dropDigits1_length h))
    · rw [if_neg hp, Option.some.injEq] at h
      rw [← h]

theorem dropExp_length {cs rest : List Char} (h : dropExp cs = some rest) :
    rest.length ≤ cs.length := by
  cases cs with
  | nil =>
    simp only [dropExp, Option.some.injEq] at h
    rw [← h]
  | cons c cs =>
    simp only [dropExp] at h
    by_cases he : c = 'e' ∨ c = 'E'
    · rw [if_pos he] at h
      cases cs with
      | nil => exact absurd h (by simp)
      | cons s tail =>
        simp only at h
        by_cases hs : s = '+' ∨ s = '-'
        · rw [if_pos hs] at h
          have := dropDigits1_length h
          simp only [List.length_cons]
          omega
        · rw [if_neg hs] at h
          have := dropDigits1_length h
          simp only [List.length_cons] at this ⊢
          omega
    · rw [if_neg he, Option.some.injEq] at h
      rw [← h]

theorem dropNumber_length {cs rest : List Char} (h : dropNumber cs = some rest) :
    rest.length < cs.length := by
  unfold dropNumber at h
  split at h
  · exact absurd h (by simp)
  · rename_i afterInt hi
    split at h
    · exact absurd h (by simp)
    · rename_i afterFrac hf
      have h1 := dropSign_length cs
      have h2 := dropInt_length hi
      have h3 := dropFrac_length hf
      have h4 := dropExp_length h
      omega

theorem jsonScalar_length {cs rest : List Char} {j : Json}
    (h : jsonScalar cs = some (j, rest)) : rest.length < cs.length := by
  unfold jsonScalar at h
  split at h
  · rename_i r hw
    simp only [Option.some.injEq, Prod.mk.injEq] at h
    have := dropWord_length _ hw
    rw [← h.2]
    simp only [List.length_cons, List.length_nil] at this
    omega
  · split at h
    · rename_i r hw
      simp only [Option.some.injEq, Prod.mk.injEq] at h
      have := dropWord_length _ hw
      rw [← h.2]
      simp only [List.length_cons, List.length_nil] at this
      omega
    · split at h
      · rename_i r hw
        simp only [Option.some.injEq, Prod.mk.injEq] at h
        have := dropWord_length _ hw
        rw [← h.2]
        simp only [List.length_cons, List.length_nil] at this
        omega
      · split at h
        · rename_i r hn
          simp only [Option.some.injEq, Prod.mk.injEq] at h
          rw [← h.2]
          exact dropNumber_length hn
        · exact absurd h (by simp)

theorem jsonScalar_first {cs rest : List Char} {j : Json}
    (h : jsonScalar cs = some (j, rest)) :
    ∃ c tail, cs = c :: tail ∧ c ≠ '"' ∧ c ≠ '\x7b' ∧ c ≠ '[' ∧ c ≠ '\x7d' ∧ c ≠ ']' := by
  cases cs with
  | nil => simp [jsonScalar, dropWord, dropNumber, dropSign, dropInt] at h
  | cons c tail =>
    refine ⟨c, tail, rfl, ?_, ?_, ?_, ?_, ?_⟩ <;>
    · rintro rfl
      simp [jsonScalar, dropWord, dropNumber, dropSign, dropInt] at h

theorem JsonReads.members_first {depth : Nat} {cs rest : List Char} {j : Json}
    (h : JsonReads depth .members cs j rest) : ∃ tail, jsonSkip cs = '"' :: tail := by
  cases h with
  | lastMember h1 _ _ _ _ => exact ⟨_, h1⟩
  | nextMember h1 _ _ _ _ _ => exact ⟨_, h1⟩

theorem JsonReads.members_object {depth : Nat} {cs rest : List Char} {j : Json}
    (h : JsonReads depth .members cs j rest) : ∃ fields, j = .object fields := by
  cases h with
  | lastMember _ _ _ _ _ => exact ⟨_, rfl⟩
  | nextMember _ _ _ _ _ _ => exact ⟨_, rfl⟩

theorem JsonReads.elements_array {depth : Nat} {cs rest : List Char} {j : Json}
    (h : JsonReads depth .elements cs j rest) : ∃ items, j = .array items := by
  cases h with
  | lastElement _ _ => exact ⟨_, rfl⟩
  | nextElement _ _ _ => exact ⟨_, rfl⟩

theorem JsonReads.value_first {depth : Nat} {cs rest : List Char} {j : Json}
    (h : JsonReads depth .value cs j rest) :
    ∃ c tail, jsonSkip cs = c :: tail ∧ c ≠ ']' ∧ c ≠ '\x7d' := by
  cases h with
  | string h1 _ => exact ⟨_, _, h1, by decide, by decide⟩
  | scalar h1 =>
    obtain ⟨c, tail, hc, _, _, _, h5, h6⟩ := jsonScalar_first h1
    exact ⟨c, tail, hc, h6, h5⟩
  | emptyObject h1 _ => exact ⟨_, _, h1, by decide, by decide⟩
  | object h1 _ => exact ⟨_, _, h1, by decide, by decide⟩
  | emptyArray h1 _ => exact ⟨_, _, h1, by decide, by decide⟩
  | array h1 _ => exact ⟨_, _, h1, by decide, by decide⟩

theorem JsonReads.elements_first {depth : Nat} {cs rest : List Char} {j : Json}
    (h : JsonReads depth .elements cs j rest) :
    ∃ c tail, jsonSkip cs = c :: tail ∧ c ≠ ']' := by
  cases h with
  | lastElement h1 _ =>
    obtain ⟨c, tail, hc, h2, _⟩ := h1.value_first
    exact ⟨c, tail, hc, h2⟩
  | nextElement h1 _ _ =>
    obtain ⟨c, tail, hc, h2, _⟩ := h1.value_first
    exact ⟨c, tail, hc, h2⟩

theorem jsonParse_sound (fuel : Nat) :
    ∀ (depth : Nat) (sort : JsonSort) (cs : List Char) (j : Json) (rest : List Char),
      jsonParse fuel depth sort cs = some (j, rest) → JsonReads depth sort cs j rest := by
  induction fuel with
  | zero =>
    intro depth sort cs j rest h
    simp [jsonParse] at h
  | succ fuel ih =>
    intro depth sort cs j rest h
    cases sort with
    | value =>
      simp only [jsonParse] at h
      split at h
      · exact absurd h (by simp)
      · rename_i c tail hskip
        by_cases hq : c = '"'
        · rw [if_pos hq] at h
          subst hq
          split at h
          · exact absurd h (by simp)
          · rename_i s rest' hs
            simp only [Option.some.injEq, Prod.mk.injEq] at h
            obtain ⟨rfl, rfl⟩ := h
            exact JsonReads.string hskip hs
        · rw [if_neg hq] at h
          by_cases ho : c = '\x7b'
          · rw [if_pos ho] at h
            subst ho
            by_cases hd : depth = 0
            · rw [if_pos hd] at h
              exact absurd h (by simp)
            · rw [if_neg hd] at h
              obtain ⟨d', rfl⟩ := Nat.exists_eq_succ_of_ne_zero hd
              split at h
              · exact absurd h (by simp)
              · rename_i e tail' hskip'
                by_cases hc : e = '\x7d'
                · rw [if_pos hc] at h
                  subst hc
                  simp only [Option.some.injEq, Prod.mk.injEq] at h
                  obtain ⟨rfl, rfl⟩ := h
                  exact JsonReads.emptyObject hskip hskip'
                · rw [if_neg hc] at h
                  have hm := ih _ _ _ _ _ h
                  obtain ⟨fields, rfl⟩ := hm.members_object
                  exact JsonReads.object hskip hm
          · rw [if_neg ho] at h
            by_cases ha : c = '['
            · rw [if_pos ha] at h
              subst ha
              by_cases hd : depth = 0
              · rw [if_pos hd] at h
                exact absurd h (by simp)
              · rw [if_neg hd] at h
                obtain ⟨d', rfl⟩ := Nat.exists_eq_succ_of_ne_zero hd
                split at h
                · exact absurd h (by simp)
                · rename_i e tail' hskip'
                  by_cases hc : e = ']'
                  · rw [if_pos hc] at h
                    subst hc
                    simp only [Option.some.injEq, Prod.mk.injEq] at h
                    obtain ⟨rfl, rfl⟩ := h
                    exact JsonReads.emptyArray hskip hskip'
                  · rw [if_neg hc] at h
                    have hm := ih _ _ _ _ _ h
                    obtain ⟨items, rfl⟩ := hm.elements_array
                    exact JsonReads.array hskip hm
            · rw [if_neg ha] at h
              exact JsonReads.scalar (by rw [hskip]; exact h)
    | members =>
      simp only [jsonParse] at h
      split at h
      · exact absurd h (by simp)
      · rename_i c tail hskip
        by_cases hq : c = '"'
        · rw [if_pos hq] at h
          subst hq
          split at h
          · exact absurd h (by simp)
          · rename_i key afterKey hkey
            split at h
            · exact absurd h (by simp)
            · rename_i colon afterColon hcolon
              by_cases hc : colon = ':'
              · rw [if_pos hc] at h
                subst hc
                split at h
                · exact absurd h (by simp)
                · rename_i v afterValue hv
                  have hv' := ih _ _ _ _ _ hv
                  split at h
                  · exact absurd h (by simp)
                  · rename_i e more hmore
                    by_cases hcomma : e = ','
                    · rw [if_pos hcomma] at h
                      subst hcomma
                      split at h
                      · rename_i fields rest'' hrest
                        simp only [Option.some.injEq, Prod.mk.injEq] at h
                        obtain ⟨rfl, rfl⟩ := h
                        exact JsonReads.nextMember hskip hkey hcolon hv' hmore
                          (ih _ _ _ _ _ hrest)
                      · exact absurd h (by simp)
                    · rw [if_neg hcomma] at h
                      by_cases hclose : e = '\x7d'
                      · rw [if_pos hclose] at h
                        subst hclose
                        simp only [Option.some.injEq, Prod.mk.injEq] at h
                        obtain ⟨rfl, rfl⟩ := h
                        exact JsonReads.lastMember hskip hkey hcolon hv' hmore
                      · rw [if_neg hclose] at h
                        exact absurd h (by simp)
              · rw [if_neg hc] at h
                exact absurd h (by simp)
        · rw [if_neg hq] at h
          exact absurd h (by simp)
    | elements =>
      simp only [jsonParse] at h
      split at h
      · exact absurd h (by simp)
      · rename_i v afterValue hv
        have hv' := ih _ _ _ _ _ hv
        split at h
        · exact absurd h (by simp)
        · rename_i e more hmore
          by_cases hcomma : e = ','
          · rw [if_pos hcomma] at h
            subst hcomma
            split at h
            · rename_i items rest'' hrest
              simp only [Option.some.injEq, Prod.mk.injEq] at h
              obtain ⟨rfl, rfl⟩ := h
              exact JsonReads.nextElement hv' hmore (ih _ _ _ _ _ hrest)
            · exact absurd h (by simp)
          · rw [if_neg hcomma] at h
            by_cases hclose : e = ']'
            · rw [if_pos hclose] at h
              subst hclose
              simp only [Option.some.injEq, Prod.mk.injEq] at h
              obtain ⟨rfl, rfl⟩ := h
              exact JsonReads.lastElement hv' hmore
            · rw [if_neg hclose] at h
              exact absurd h (by simp)

theorem jsonParse_complete {depth : Nat} {sort : JsonSort} {cs rest : List Char} {j : Json}
    (h : JsonReads depth sort cs j rest) :
    rest.length < cs.length ∧
      ∀ fuel, cs.length - rest.length ≤ fuel → jsonParse fuel depth sort cs = some (j, rest) := by
  induction h with
  | @string depth cs afterQuote s rest h1 h2 =>
    have l1 := jsonSkip_cons_length h1
    have l2 := jsonString_length h2
    refine ⟨by omega, fun fuel hf => ?_⟩
    obtain ⟨f, rfl⟩ : ∃ f, fuel = f + 1 := ⟨fuel - 1, by omega⟩
    simp only [jsonParse, h1, h2, if_true]
  | @scalar depth cs rest j h1 =>
    obtain ⟨c, tail, hc, n1, n2, n3, _, _⟩ := jsonScalar_first h1
    have l1 := jsonSkip_cons_length hc
    have l2 := jsonScalar_length h1
    rw [hc] at l2 h1
    simp only [List.length_cons] at l2
    refine ⟨by omega, fun fuel hf => ?_⟩
    obtain ⟨f, rfl⟩ : ∃ f, fuel = f + 1 := ⟨fuel - 1, by omega⟩
    simp only [jsonParse, hc, if_neg n1, if_neg n2, if_neg n3, h1]
  | @emptyObject depth cs inner rest h1 h2 =>
    have l1 := jsonSkip_cons_length h1
    have l2 := jsonSkip_cons_length h2
    refine ⟨by omega, fun fuel hf => ?_⟩
    obtain ⟨f, rfl⟩ : ∃ f, fuel = f + 1 := ⟨fuel - 1, by omega⟩
    have hq : ¬ ('\x7b' : Char) = '"' := by decide
    simp only [jsonParse, h1, h2, if_neg hq, if_true, Nat.succ_ne_zero, if_false]
  | @object depth cs inner rest fields h1 h2 ih =>
    have l1 := jsonSkip_cons_length h1
    obtain ⟨l2, ih⟩ := ih
    refine ⟨by omega, fun fuel hf => ?_⟩
    obtain ⟨f, rfl⟩ : ∃ f, fuel = f + 1 := ⟨fuel - 1, by omega⟩
    obtain ⟨tail, ht⟩ := h2.members_first
    have hq : ¬ ('\x7b' : Char) = '"' := by decide
    have hc : ¬ ('"' : Char) = '\x7d' := by decide
    simp only [jsonParse, h1, ht, if_neg hq, if_neg hc, if_true, Nat.succ_ne_zero, if_false,
      Nat.add_sub_cancel]
    exact ih f (by omega)
  | @emptyArray depth cs inner rest h1 h2 =>
    have l1 := jsonSkip_cons_length h1
    have l2 := jsonSkip_cons_length h2
    refine ⟨by omega, fun fuel hf => ?_⟩
    obtain ⟨f, rfl⟩ : ∃ f, fuel = f + 1 := ⟨fuel - 1, by omega⟩
    have hq : ¬ ('[' : Char) = '"' := by decide
    have ho : ¬ ('[' : Char) = '\x7b' := by decide
    simp only [jsonParse, h1, h2, if_neg hq, if_neg ho, if_true, Nat.succ_ne_zero, if_false]
  | @array depth cs inner rest items h1 h2 ih =>
    have l1 := jsonSkip_cons_length h1
    obtain ⟨l2, ih⟩ := ih
    refine ⟨by omega, fun fuel hf => ?_⟩
    obtain ⟨f, rfl⟩ : ∃ f, fuel = f + 1 := ⟨fuel - 1, by omega⟩
    obtain ⟨c, tail, ht, hne⟩ := h2.elements_first
    have hq : ¬ ('[' : Char) = '"' := by decide
    have ho : ¬ ('[' : Char) = '\x7b' := by decide
    simp only [jsonParse, h1, ht, if_neg hq, if_neg ho, if_neg hne, if_true, Nat.succ_ne_zero,
      if_false, Nat.add_sub_cancel]
    exact ih f (by omega)
  | @lastMember depth cs afterQuote key afterKey afterColon afterValue rest v h1 h2 h3 h4 h5 ih =>
    have l1 := jsonSkip_cons_length h1
    have l2 := jsonString_length h2
    have l3 := jsonSkip_cons_length h3
    obtain ⟨l4, ih⟩ := ih
    have l5 := jsonSkip_cons_length h5
    refine ⟨by omega, fun fuel hf => ?_⟩
    obtain ⟨f, rfl⟩ : ∃ f, fuel = f + 1 := ⟨fuel - 1, by omega⟩
    have hv := ih f (by omega)
    have hc : ¬ ('\x7d' : Char) = ',' := by decide
    simp only [jsonParse, h1, h2, h3, hv, h5, if_neg hc, if_true]
  | @nextMember depth cs afterQuote key afterKey afterColon afterValue more rest v fields
      h1 h2 h3 h4 h5 h6 ih4 ih6 =>
    have l1 := jsonSkip_cons_length h1
    have l2 := jsonString_length h2
    have l3 := jsonSkip_cons_length h3
    obtain ⟨l4, ih4⟩ := ih4
    have l5 := jsonSkip_cons_length h5
    obtain ⟨l6, ih6⟩ := ih6
    refine ⟨by omega, fun fuel hf => ?_⟩
    obtain ⟨f, rfl⟩ : ∃ f, fuel = f + 1 := ⟨fuel - 1, by omega⟩
    have hv := ih4 f (by omega)
    have hm := ih6 f (by omega)
    simp only [jsonParse, h1, h2, h3, hv, h5, hm, if_true]
  | @lastElement depth cs afterValue rest v h1 h2 ih =>
    obtain ⟨l1, ih⟩ := ih
    have l2 := jsonSkip_cons_length h2
    refine ⟨by omega, fun fuel hf => ?_⟩
    obtain ⟨f, rfl⟩ : ∃ f, fuel = f + 1 := ⟨fuel - 1, by omega⟩
    have hv := ih f (by omega)
    have hc : ¬ (']' : Char) = ',' := by decide
    simp only [jsonParse, hv, h2, if_neg hc, if_true]
  | @nextElement depth cs afterValue more rest v items h1 h2 h3 ih1 ih3 =>
    obtain ⟨l1, ih1⟩ := ih1
    have l2 := jsonSkip_cons_length h2
    obtain ⟨l3, ih3⟩ := ih3
    refine ⟨by omega, fun fuel hf => ?_⟩
    obtain ⟨f, rfl⟩ : ∃ f, fuel = f + 1 := ⟨fuel - 1, by omega⟩
    have hv := ih1 f (by omega)
    have hm := ih3 f (by omega)
    simp only [jsonParse, hv, h2, hm, if_true]

/-- The parser reads a document exactly when the grammar gives it that value. -/
theorem jsonDocument_iff (content : String) (j : Json) :
    jsonDocument content = some j ↔ JsonDocument content j := by
  unfold jsonDocument JsonDocument
  constructor
  · intro h
    split at h
    · exact absurd h (by simp)
    · rename_i v rest hp
      by_cases hs : jsonSkip rest = []
      · rw [if_pos hs, Option.some.injEq] at h
        subst h
        exact ⟨rest, jsonParse_sound _ _ _ _ _ _ hp, hs⟩
      · rw [if_neg hs] at h
        exact absurd h (by simp)
  · rintro ⟨rest, hr, hs⟩
    obtain ⟨_, hc⟩ := jsonParse_complete hr
    have hlen : content.length = content.data.length := rfl
    rw [hc (content.length + 1) (by omega)]
    simp only [hs, if_true]

theorem foldlM_ok_iff {σ α : Type} (step : σ → α → Except GoError σ) (P : α → Prop)
    (hstep : ∀ s a, (∃ s', step s a = .ok s') ↔ P a) (l : List α) :
    ∀ s : σ, (∃ s', l.foldlM step s = .ok s') ↔ ∀ a ∈ l, P a := by
  induction l with
  | nil =>
    intro s
    simp only [List.foldlM_nil, List.not_mem_nil, false_implies, implies_true, iff_true]
    exact ⟨s, rfl⟩
  | cons a l ih =>
    intro s
    rw [List.foldlM_cons, List.forall_mem_cons, ← hstep s a]
    cases hs : step s a with
    | error e =>
      simp only [bind, Except.bind]
      constructor
      · rintro ⟨s', h⟩
        exact absurd h (by simp)
      · rintro ⟨⟨s', h⟩, _⟩
        exact absurd h (by simp)
    | ok s1 =>
      simp only [bind, Except.bind]
      rw [ih s1]
      constructor
      · intro h
        exact ⟨⟨s1, rfl⟩, h⟩
      · intro h
        exact h.2

theorem foldsTo_length : ∀ (ts cs : List Char), foldsTo ts cs = true → ts.length = cs.length
  | [], [], _ => rfl
  | [], _ :: _, h => by simp [foldsTo] at h
  | _ :: _, [], h => by simp [foldsTo] at h
  | t :: ts, c :: cs, h => by
    simp only [foldsTo, Bool.and_eq_true] at h
    simp only [List.length_cons, foldsTo_length ts cs h.2]

theorem keyIs_length {name key : String} (h : keyIs name key = true) :
    key.data.length = name.data.length := by
  simp only [keyIs, Bool.or_eq_true, beq_iff_eq] at h
  rcases h with h | h
  · rw [h]
  · exact (foldsTo_length _ _ h).symm

theorem not_subnets_and_mac (key : String) (h1 : keyIs "subnets" key = true)
    (h2 : keyIs "mac_address" key = true) : False := by
  have l1 := keyIs_length h1
  have l2 := keyIs_length h2
  rw [l1] at l2
  exact absurd l2 (by decide)

theorem decodeString_ok_iff (old : String) (j : Json) :
    (∃ s, decodeString old j = .ok s) ↔ j.IsStringOrNull := by
  cases j <;> simp [decodeString, Json.IsStringOrNull]

theorem decodeSubnetField_ok_iff (subnet : NetworkSubnet) (field : String × Json) :
    (∃ s, decodeSubnetField subnet field = .ok s) ↔
      ((keyIs "ipnet" field.1 = true ∨ keyIs "gateway" field.1 = true) →
        field.2.IsStringOrNull) := by
  unfold decodeSubnetField
  by_cases h1 : keyIs "ipnet" field.1 = true
  · rw [if_pos h1, ← decodeString_ok_iff subnet.IPNet]
    cases hd : decodeString subnet.IPNet field.2 <;> simp [h1]
  · rw [if_neg h1]
    by_cases h2 : keyIs "gateway" field.1 = true
    · rw [if_pos h2, ← decodeString_ok_iff subnet.Gateway]
      cases hd : decodeString subnet.Gateway field.2 <;> simp [h2]
    · rw [if_neg h2]
      simp [h1, h2]

theorem decodeSubnet_ok_iff (old : NetworkSubnet) (j : Json) :
    (∃ s, decodeSubnet old j = .ok s) ↔ SubnetShape j := by
  cases j with
  | object fields =>
    simp only [decodeSubnet, SubnetShape]
    exact foldlM_ok_iff decodeSubnetField _ decodeSubnetField_ok_iff fields old
  | null => simp [decodeSubnet, SubnetShape]
  | bool b => simp [decodeSubnet, SubnetShape]
  | number t => simp [decodeSubnet, SubnetShape]
  | string s => simp [decodeSubnet, SubnetShape]
  | array items => simp [decodeSubnet, SubnetShape]

theorem decodeSubnets_ok_iff (items : List Json) :
    ∀ backing : List NetworkSubnet,
      (∃ r, decodeSubnets backing items = .ok r) ↔ ∀ item ∈ items, SubnetShape item := by
  induction items with
  | nil =>
    intro backing
    simp [decodeSubnets]
  | cons item items ih =>
    intro backing
    rw [List.forall_mem_cons, ← decodeSubnet_ok_iff (backing.headD { IPNet := "", Gateway := "" }),
      ← ih backing.tail]
    simp only [decodeSubnets]
    cases h1 : decodeSubnet (backing.headD { IPNet := "", Gateway := "" }) item with
    | error e => simp
    | ok s =>
      cases h2 : decodeSubnets backing.tail items with
      | error e => simp
      | ok r => simp

theorem decodeSubnetsInto_ok_iff (st : InterfaceState) (j : Json) :
    (∃ st', decodeSubnetsInto st j = .ok st') ↔ SubnetsShape j := by
  cases j with
  | array items =>
    cases items with
    | nil => simp [decodeSubnetsInto, SubnetsShape]
    | cons item items =>
      simp only [decodeSubnetsInto, SubnetsShape]
      rw [← decodeSubnets_ok_iff (item :: items) (st.iface.Subnets ++ st.spare)]
      cases h : decodeSubnets (st.iface.Subnets ++ st.spare) (item :: items) <;> simp
  | null => simp [decodeSubnetsInto, SubnetsShape]
  | bool b => simp [decodeSubnetsInto, SubnetsShape]
  | number t => simp [decodeSubnetsInto, SubnetsShape]
  | string s => simp [decodeSubnetsInto, SubnetsShape]
  | object fields => simp [decodeSubnetsInto, SubnetsShape]

theorem decodeInterfaceField_ok_iff (st : InterfaceState) (field : String × Json) :
    (∃ st', decodeInterfaceField st field = .ok st') ↔
      ((keyIs "subnets" field.1 = true → SubnetsShape field.2)
        ∧ (keyIs "mac_address" field.1 = true → field.2.IsStringOrNull)) := by
  unfold decodeInterfaceField
  by_cases h1 : keyIs "subnets" field.1 = true
  · have h2 : ¬ keyIs "mac_address" field.1 = true := fun h2 => not_subnets_and_mac _ h1 h2
    rw [if_pos h1, decodeSubnetsInto_ok_iff]
    simp [h1, h2]
  · rw [if_neg h1]
    by_cases h2 : keyIs "mac_address" field.1 = true
    · rw [if_pos h2, ← decodeString_ok_iff st.iface.MacAddress]
      cases hd : decodeString st.iface.MacAddress field.2 <;> simp [h1, h2]
    · rw [if_neg h2]
      simp [h1, h2]

theorem decodeInterface_ok_iff (j : Json) :
    (∃ iface, decodeInterface j = .ok iface) ↔ InterfaceShape j := by
  cases j with
  | object fields =>
    simp only [decodeInterface, InterfaceShape]
    rw [← foldlM_ok_iff decodeInterfaceField _ decodeInterfaceField_ok_iff fields
      { iface := { Subnets := [], MacAddress := "" }, spare := [] }]
    cases h : List.foldlM decodeInterfaceField
        { iface := { Subnets := [], MacAddress := "" }, spare := [] } fields <;> simp
  | null => simp [decodeInterface, InterfaceShape]
  | bool b => simp [decodeInterface, InterfaceShape]
  | number t => simp [decodeInterface, InterfaceShape]
  | string s => simp [decodeInterface, InterfaceShape]
  | array items => simp [decodeInterface, InterfaceShape]

theorem decodeInterfacesField_ok_iff (entries : List (String × NetworkInterface))
    (field : String × Json) :
    (∃ r, decodeInterfacesField entries field = .ok r) ↔ InterfaceShape field.2 := by
  unfold decodeInterfacesField
  rw [← decodeInterface_ok_iff]
  cases h : decodeInterface field.2 <;> simp

theorem decodeInterfaces_ok_iff (old : InterfaceMap) (j : Json) :
    (∃ m, decodeInterfaces old j = .ok m) ↔ InterfacesShape j := by
  cases j with
  | object fields =>
    simp only [decodeInterfaces, InterfacesShape]
    rw [← foldlM_ok_iff decodeInterfacesField _ decodeInterfacesField_ok_iff fields old.entries]
    cases h : List.foldlM decodeInterfacesField old.entries fields <;> simp
  | null => simp [decodeInterfaces, InterfacesShape]
  | bool b => simp [decodeInterfaces, InterfacesShape]
  | number t => simp [decodeInterfaces, InterfacesShape]
  | string s => simp [decodeInterfaces, InterfacesShape]
  | array items => simp [decodeInterfaces, InterfacesShape]

theorem decodePodmanField_ok_iff (podman : PodmanSection) (field : String × Json) :
    (∃ r, decodePodmanField podman field = .ok r) ↔
      (keyIs "interfaces" field.1 = true → InterfacesShape field.2) := by
  unfold decodePodmanField
  by_cases h1 : keyIs "interfaces" field.1 = true
  · rw [if_pos h1, ← decodeInterfaces_ok_iff podman.Interfaces]
    cases hd : decodeInterfaces podman.Interfaces field.2 <;> simp [h1]
  · rw [if_neg h1]
    simp [h1]

theorem decodePodman_ok_iff (old : PodmanSection) (j : Json) :
    (∃ r, decodePodman old j = .ok r) ↔ PodmanShape j := by
  cases j with
  | object fields =>
    simp only [decodePodman, PodmanShape]
    exact foldlM_ok_iff decodePodmanField _ decodePodmanField_ok_iff fields old
  | null => simp [decodePodman, PodmanShape]
  | bool b => simp [decodePodman, PodmanShape]
  | number t => simp [decodePodman, PodmanShape]
  | string s => simp [decodePodman, PodmanShape]
  | array items => simp [decodePodman, PodmanShape]

theorem decodeStatusField_ok_iff (status : PodmanNetworkStatus) (field : String × Json) :
    (∃ r, decodeStatusField status field = .ok r) ↔
      (keyIs "podman" field.1 = true → PodmanShape field.2) := by
  unfold decodeStatusField
  by_cases h1 : keyIs "podman" field.1 = true
  · rw [if_pos h1, ← decodePodman_ok_iff status.Podman]
    cases hd : decodePodman status.Podman field.2 <;> simp [h1]
  · rw [if_neg h1]
    simp [h1]

theorem decodeStatus_ok_iff (j : Json) :
    (∃ r, decodeStatus j = .ok r) ↔ StatusShape j := by
  cases j with
  | object fields =>
    simp only [decodeStatus, StatusShape]
    exact foldlM_ok_iff decodeStatusField _ decodeStatusField_ok_iff fields _
  | null => simp [decodeStatus, StatusShape]
  | bool b => simp [decodeStatus, StatusShape]
  | number t => simp [decodeStatus, StatusShape]
  | string s => simp [decodeStatus, StatusShape]
  | array items => simp [decodeStatus, StatusShape]

/-- The decoder succeeds exactly on the contents that are well-formed data for the
schema. -/
theorem decodeNetworkStatus_ok_iff (content : String) :
    (∃ status, decodeNetworkStatus content = .ok status) ↔ WellFormedStatus content := by
  unfold decodeNetworkStatus WellFormedStatus
  cases h : jsonDocument content with
  | none =>
    simp only [exists_false, false_iff, reduceCtorEq]
    rintro ⟨j, hj, _⟩
    rw [(jsonDocument_iff content j).2 hj] at h
    exact absurd h (by simp)
  | some j =>
    simp only
    rw [decodeStatus_ok_iff]
    constructor
    · intro hs
      exact ⟨j, (jsonDocument_iff content j).1 h, hs⟩
    · rintro ⟨j', hj', hs⟩
      have := (jsonDocument_iff content j').2 hj'
      rw [h, Option.some.injEq] at this
      rw [this]
      exact hs

theorem decodeNetworkStatus_error_iff (content : String) :
    (∃ e, decodeNetworkStatus content = .error e) ↔ ¬ WellFormedStatus content := by
  rw [← decodeNetworkStatus_ok_iff]
  cases h : decodeNetworkStatus content <;> simp

set_option maxRecDepth 100000 in
/-- The decoder on four small documents: a number followed by `-2` is not JSON; an
escape with four hexadecimal digits is read; keys are matched whatever the case of
their letters; `null` after a map of interfaces makes the map nil again. -/
theorem decodeNetworkStatus_examples :
    decodeNetworkStatus "\x7b\"x\":1-2\x7d" = .error (.plain "invalid JSON input")
      ∧ decodeNetworkStatus "\x7b\"x\":\"a\\u003ab\"\x7d"
          = .ok { Podman := { Interfaces := none } }
      ∧ decodeNetworkStatus "\x7b\"PODMAN\":\x7b\"Interfaces\":\x7b\"lo\":\x7b\"MAC_address\":\"m\"\x7d\x7d\x7d\x7d"
          = .ok { Podman := { Interfaces := some [("lo", { Subnets := [], MacAddress := "m" })] } }
      ∧ decodeNetworkStatus "\x7b\"podman\":\x7b\"interfaces\":\x7b\"lo\":\x7b\x7d\x7d,\"interfaces\":null\x7d\x7d"
          = .ok { Podman := { Interfaces := none } } := by
  refine ⟨?_, ?_, ?_, ?_⟩ <;> rfl

set_option maxRecDepth 100000 in
theorem decode_eth0Document : decodeNetworkStatus eth0Document = .ok eth0Status := by
  rfl

set_option maxRecDepth 100000 in
theorem read_eth0Files :
    ReadJSONFile eth0Files "/tmp/cp1" NetworkStatusFile
      = .ok (eth0Status, "/tmp/cp1/network.status") := by
  rfl

set_option maxRecDepth 100000 in
theorem read_eth0Files_missing :
    ReadJSONFile eth0Files "/tmp/cp2" NetworkStatusFile
      = .error (.plain "open /tmp/cp2/network.status: no such file or directory") := by
  rfl

/-- C12: the document of the round-trip property decodes to the record with the
one interface eth0, of MAC address f2:99:8d:fb:5a:57 and with the one subnet
10.88.0.9/16 of gateway 10.88.0.1, and `FormatNetworkInfo` of that record is the
text of the property, whatever the order of the `range`. -/
theorem decode_then_format_eth0 (order : RangeOrder) :
    decodeNetworkStatus
        "\x7b\"podman\":\x7b\"interfaces\":\x7b\"eth0\":\x7b\"subnets\":[\x7b\"ipnet\":\"10.88.0.9/16\",\"gateway\":\"10.88.0.1\"\x7d],\"mac_address\":\"f2:99:8d:fb:5a:57\"\x7d\x7d\x7d\x7d"
        = .ok
          { Podman :=
            { Interfaces := some
                [ ("eth0",
                    { Subnets := [ { IPNet := "10.88.0.9/16", Gateway := "10.88.0.1" } ],
                      MacAddress := "f2:99:8d:fb:5a:57" }) ] } }
      ∧ FormatNetworkInfo order
          (some
            { Podman :=
              { Interfaces := some
                  [ ("eth0",
                      { Subnets := [ { IPNet := "10.88.0.9/16", Gateway := "10.88.0.1" } ],
                        MacAddress := "f2:99:8d:fb:5a:57" }) ] } })
          = "Interface: eth0\n  MAC Address: f2:99:8d:fb:5a:57\n  IP/Subnet: 10.88.0.9/16\n  Gateway: 10.88.0.1\n\n" := by
  refine ⟨decode_eth0Document, ?_⟩
  rw [FormatNetworkInfo_single order _ _ rfl]
  decide

/-- C13: with `--network` (given or through `--all`) and `CreateTasks`
successful, `inspect` calls `ReadNetworkStatus` once for each task, in the order
of the list, whatever reads fail; it prints one text for each task, in the same
order, the formatted record when the read succeeded and a warning when it failed;
it hands the whole list to the renderer the format selects; and the error it
returns is the one of the dispatch, the same whatever the reads do. -/
theorem network_failures_isolated (env : Collaborators) (md : Metadata) (args : List String)
    (f : Flags) (tasks : List Task)
    (hn : (expandShowAll f).showNetwork = true)
    (hc : env.CreateTasks args (inspectResolve md f).requiredFiles = .ok tasks) :
    readsOf (inspect env md args f).trace = tasks.map Task.Dir
      ∧ printsOf (inspect env md args f).trace =
          tasks.map (fun task =>
            match env.ReadJSONFile task.Dir NetworkStatusFile with
            | .ok (ns, _) =>
              "\nNetwork Information for " ++ task.Dir ++ ":\n"
                ++ FormatNetworkInfo env.rangeOrder (some ns)
            | .error e =>
              "Warning: Failed to read network information from " ++ "" ++ ": "
                ++ ("failed to read network status: " ++ e.Error) ++ "\n")
      ∧ rendersOf (inspect env md args f).trace =
          (if f.format = "tree" then [Event.renderTreeView tasks]
            else if f.format = "json" then [Event.renderJSONView tasks] else [])
      ∧ (inspect env md args f).err =
          (if f.format = "tree" then env.RenderTreeView tasks
            else if f.format = "json" then env.RenderJSONView tasks
            else some (.plain ("invalid output format: " ++ f.format)))
      ∧ ∀ reader : String → String → Except GoError (PodmanNetworkStatus × String),
          (inspect { env with ReadJSONFile := reader } md args f).err
              = (inspect env md args f).err
            ∧ rendersOf (inspect { env with ReadJSONFile := reader } md args f).trace
              = rendersOf (inspect env md args f).trace := by
  obtain ⟨p1, p2, p3, _, _⟩ := trace_projections env md args f tasks hc
  have herr : (inspect env md args f).err = (renderDispatch env f.format tasks).2 := by
    rw [inspect_of_ok env md args f tasks hc]
  have hd1 : (renderDispatch env f.format tasks).1 =
      (if f.format = "tree" then [Event.renderTreeView tasks]
        else if f.format = "json" then [Event.renderJSONView tasks] else []) := by
    unfold renderDispatch
    by_cases h1 : f.format = "tree"
    · simp [h1]
    · by_cases h2 : f.format = "json" <;> simp [h1, h2]
  have hd2 : (renderDispatch env f.format tasks).2 =
      (if f.format = "tree" then env.RenderTreeView tasks
        else if f.format = "json" then env.RenderJSONView tasks
        else some (.plain ("invalid output format: " ++ f.format))) := by
    unfold renderDispatch
    by_cases h1 : f.format = "tree"
    · simp [h1]
    · by_cases h2 : f.format = "json" <;> simp [h1, h2]
  refine ⟨?_, ?_, ?_, ?_, fun reader => ?_⟩
  · rw [p1, if_pos hn, readsOf_networkLoop]
  · rw [p2, if_pos hn, printsOf_networkLoop]
  · rw [p3, hd1]
  · rw [herr, hd2]
  · have hc' : ({ env with ReadJSONFile := reader } : Collaborators).CreateTasks args
        (inspectResolve md f).requiredFiles = .ok tasks := hc
    obtain ⟨_, _, q3, _, _⟩ := trace_projections _ md args f tasks hc'
    have e1 : (inspect { env with ReadJSONFile := reader } md args f).err
        = (renderDispatch { env with ReadJSONFile := reader } f.format tasks).2 := by
      rw [inspect_of_ok _ md args f tasks hc']
    constructor
    · rw [e1, herr]
      rfl
    · rw [q3, p3]
      rfl

theorem network_failures_isolated_witness :
    readsOf (inspect sampleEnv upstreamMetadata ["cp1.tar", "cp2.tar"] sampleNetwork).trace
      = sampleTasks.map Task.Dir :=
  (network_failures_isolated sampleEnv upstreamMetadata ["cp1.tar", "cp2.tar"] sampleNetwork
    sampleTasks rfl rfl).1

/-- C14: after `CreateTasks` succeeded, `inspect` calls `RenderTreeView` on the
whole list, it alone, and returns its result when the format is "tree"; it calls
`RenderJSONView` on the whole list, it alone, and returns its result when the
format is "json"; on any other format it calls no renderer and returns an error
whose text ends with the format given. -/
theorem render_dispatch (env : Collaborators) (md : Metadata) (args : List String)
    (f : Flags) (tasks : List Task)
    (hc : env.CreateTasks args (inspectResolve md f).requiredFiles = .ok tasks) :
    (f.format = "tree" →
        rendersOf (inspect env md args f).trace = [Event.renderTreeView tasks]
          ∧ (inspect env md args f).err = env.RenderTreeView tasks)
      ∧ (f.format = "json" →
        rendersOf (inspect env md args f).trace = [Event.renderJSONView tasks]
          ∧ (inspect env md args f).err = env.RenderJSONView tasks)
      ∧ (f.format ≠ "tree" → f.format ≠ "json" →
        rendersOf (inspect env md args f).trace = []
          ∧ (inspect env md args f).err
              = some (.plain ("invalid output format: " ++ f.format))) := by
  obtain ⟨_, _, p3, _, _⟩ := trace_projections env md args f tasks hc
  have herr : (inspect env md args f).err = (renderDispatch env f.format tasks).2 := by
    rw [inspect_of_ok env md args f tasks hc]
  rw [p3, herr]
  unfold renderDispatch
  refine ⟨fun h => ?_, fun h => ?_, fun h1 h2 => ?_⟩
  · simp [h]
  · have : ¬ f.format = "tree" := by
      rw [h]
      decide
    simp [h]
  · simp [h1, h2]

theorem render_dispatch_witness :
    rendersOf (inspect sampleEnv upstreamMetadata ["cp1.tar"] (emptyFlags "xml")).trace = []
      ∧ (inspect sampleEnv upstreamMetadata ["cp1.tar"] (emptyFlags "xml")).err
          = some (.plain ("invalid output format: " ++ (emptyFlags "xml").format)) :=
  (render_dispatch sampleEnv upstreamMetadata ["cp1.tar"] (emptyFlags "xml") sampleTasks
    rfl).2.2 (by decide) (by decide)

/-- C15, as stated, fails: when `CreateTasks` fails, `inspect` returns its error
and `CleanupTasks` has not been called. -/
theorem no_cleanup_after_failed_create :
    (inspect failingEnv upstreamMetadata ["missing.tar"] (emptyFlags "tree")).err
        = some (.plain "stat missing.tar: no such file or directory")
      ∧ cleanupsOf
          (inspect failingEnv upstreamMetadata ["missing.tar"] (emptyFlags "tree")).trace
          = [] := by
  constructor <;> rfl

/-- C15, amended: on every way out of `inspect` after `CreateTasks` succeeded
(the renderer returned nil, the renderer failed, the format is not supported)
`CleanupTasks` has been called on the tasks, once, as the last thing `inspect`
does, after every read and the rendering; when `CreateTasks` fails, `inspect`
returns without calling `CleanupTasks`. -/
theorem cleanup_once_and_last (env : Collaborators) (md : Metadata) (args : List String)
    (f : Flags) :
    (∀ tasks : List Task,
        env.CreateTasks args (inspectResolve md f).requiredFiles = .ok tasks →
        cleanupsOf (inspect env md args f).trace = [tasks]
          ∧ ∃ before : List Event,
              (inspect env md args f).trace = before ++ [Event.cleanupTasks tasks]
                ∧ cleanupsOf before = []
                ∧ readsOf before = readsOf (inspect env md args f).trace
                ∧ rendersOf before = rendersOf (inspect env md args f).trace)
      ∧ (∀ e : GoError,
          env.CreateTasks args (inspectResolve md f).requiredFiles = .error e →
          cleanupsOf (inspect env md args f).trace = []) := by
  refine ⟨fun tasks hc => ?_, fun e he => ?_⟩
  · obtain ⟨_, _, _, p4, _⟩ := trace_projections env md args f tasks hc
    refine ⟨p4, [.createTasks args (inspectResolve md f).requiredFiles]
      ++ (if (expandShowAll f).showNetwork then networkLoop env tasks else [])
      ++ (renderDispatch env f.format tasks).1, ?_, ?_, ?_, ?_⟩
    · rw [inspect_of_ok env md args f tasks hc]
    · have hl : cleanupsOf (if (expandShowAll f).showNetwork then networkLoop env tasks else [])
          = [] := by
        by_cases hn : (expandShowAll f).showNetwork = true
        · rw [if_pos hn]
          exact cleanupsOf_networkLoop env tasks
        · rw [if_neg hn]
          rfl
      have hd := (renderDispatch_events env f.format tasks).2.2.1
      simp only [cleanupsOf, List.filterMap_append] at hl hd ⊢
      rw [hl, hd]
      rfl
    · rw [inspect_of_ok env md args f tasks hc]
      simp [readsOf, List.filterMap_append]
    · rw [inspect_of_ok env md args f tasks hc]
      simp [rendersOf, List.filter_append]
  · rw [inspect_of_error env md args f e he]
    rfl

theorem cleanup_once_and_last_witness :
    cleanupsOf (inspect sampleEnv upstreamMetadata ["cp1.tar"] (emptyFlags "xml")).trace
      = [sampleTasks] :=
  ((cleanup_once_and_last sampleEnv upstreamMetadata ["cp1.tar"] (emptyFlags "xml")).1
    sampleTasks rfl).1

/-- C16: `inspect` calls `CreateTasks` once, first, with the targets it was given
and the list it resolved; when that call fails with an error, `inspect` returns
that error, and has neither read a network status, nor printed, nor called a
renderer. -/
theorem create_tasks_once (env : Collaborators) (md : Metadata) (args : List String)
    (f : Flags) :
    createsOf (inspect env md args f).trace = [(args, (inspectResolve md f).requiredFiles)]
      ∧ (inspect env md args f).trace.head?
          = some (Event.createTasks args (inspectResolve md f).requiredFiles)
      ∧ ∀ e : GoError,
          env.CreateTasks args (inspectResolve md f).requiredFiles = .error e →
          (inspect env md args f).err = some e
            ∧ (inspect env md args f).trace
                = [Event.createTasks args (inspectResolve md f).requiredFiles]
            ∧ readsOf (inspect env md args f).trace = []
            ∧ printsOf (inspect env md args f).trace = []
            ∧ rendersOf (inspect env md args f).trace = [] := by
  cases hc : env.CreateTasks args (inspectResolve md f).requiredFiles with
  | error e0 =>
    rw [inspect_of_error env md args f e0 hc]
    refine ⟨rfl, rfl, fun e he => ?_⟩
    cases he
    exact ⟨rfl, rfl, rfl, rfl, rfl⟩
  | ok tasks =>
    obtain ⟨_, _, _, _, p5⟩ := trace_projections env md args f tasks hc
    refine ⟨p5, ?_, fun e he => ?_⟩
    · rw [inspect_of_ok env md args f tasks hc]
      rfl
    · cases he

theorem create_tasks_once_witness :
    (inspect failingEnv upstreamMetadata ["missing.tar"] sampleNetwork).err
        = some (.plain "stat missing.tar: no such file or directory")
      ∧ (inspect failingEnv upstreamMetadata ["missing.tar"] sampleNetwork).trace
          = [Event.createTasks ["missing.tar"]
              (inspectResolve upstreamMetadata sampleNetwork).requiredFiles]
      ∧ readsOf (inspect failingEnv upstreamMetadata ["missing.tar"] sampleNetwork).trace = []
      ∧ printsOf (inspect failingEnv upstreamMetadata ["missing.tar"] sampleNetwork).trace = []
      ∧ rendersOf (inspect failingEnv upstreamMetadata ["missing.tar"] sampleNetwork).trace
          = [] :=
  (create_tasks_once failingEnv upstreamMetadata ["missing.tar"] sampleNetwork).2.2 _ rfl

/-- C17 fails on the code: when the read of the member fails, `ReadNetworkStatus`
returns the empty string as the path, and the warning of `inspect` has nothing
between "from " and the colon; with a cause that names no path, the warning names
neither the task nor the path. -/
theorem ReadNetworkStatus_failure_loses_path :
    ReadNetworkStatus (ReadJSONFile eth0Files) "/tmp/cp2"
        = (none, "",
            some (.wrapping
              "failed to read network status: open /tmp/cp2/network.status: no such file or directory"
              (.plain "open /tmp/cp2/network.status: no such file or directory")))
      ∧ networkStep sampleEnv { Dir := "/tmp/cp2" }
        = [ Event.readNetworkStatus "/tmp/cp2",
            Event.printed
              "Warning: Failed to read network information from : failed to read network status: open /tmp/cp2/network.status: no such file or directory\n" ]
      ∧ networkStep { sampleEnv with ReadJSONFile := truncatedReader } { Dir := "/tmp/cp2" }
        = [ Event.readNetworkStatus "/tmp/cp2",
            Event.printed
              "Warning: Failed to read network information from : failed to read network status: unexpected end of JSON input\n" ] := by
  have h : ReadJSONFile eth0Files "/tmp/cp2" NetworkStatusFile
      = .error (.plain "open /tmp/cp2/network.status: no such file or directory") :=
    read_eth0Files_missing
  refine ⟨?_, ?_, ?_⟩
  · simp only [ReadNetworkStatus, h]
    decide
  · have h' : sampleEnv.ReadJSONFile "/tmp/cp2" NetworkStatusFile
        = .error (.plain "open /tmp/cp2/network.status: no such file or directory") := h
    rw [networkStep_eq]
    simp only [h']
    decide
  · rw [networkStep_eq]
    decide

/-- C18: `ReadNetworkStatus` fails exactly when `ReadJSONFile` fails on the member
`network.status` of the directory; when the read succeeds it returns the record
read, not nil, the path `ReadJSONFile` returned, and no error; when the read fails
it returns nil and an error that wraps the cause. With `ReadJSONFile` as the
specification has it, the read fails exactly when the member is missing or its
content is not well-formed data for the schema (a JSON document in which what the
schema names has the kind the schema gives it), and on success the path is the
directory joined with "network.status" and the record is the decoded content. -/
theorem ReadNetworkStatus_result
    (reader : String → String → Except GoError (PodmanNetworkStatus × String))
    (fs : FileSystem) (dir : String) :
    ((ReadNetworkStatus reader dir).2.2 ≠ none ↔ ∃ e, reader dir "network.status" = .error e)
      ∧ (∀ ns path, reader dir "network.status" = .ok (ns, path) →
          ReadNetworkStatus reader dir = (some ns, path, none))
      ∧ (∀ e, reader dir "network.status" = .error e →
          ∃ err, ReadNetworkStatus reader dir = (none, "", some err)
            ∧ err.Unwrap = some e
            ∧ err.Error = "failed to read network status: " ++ e.Error)
      ∧ ((∃ e, ReadJSONFile fs dir "network.status" = .error e) ↔
          (fs (filepathJoin [dir, "network.status"]) = none
            ∨ ∃ content, fs (filepathJoin [dir, "network.status"]) = some content
                ∧ ¬ WellFormedStatus content))
      ∧ ((ReadNetworkStatus (ReadJSONFile fs) dir).2.2 ≠ none ↔
          (fs (filepathJoin [dir, "network.status"]) = none
            ∨ ∃ content, fs (filepathJoin [dir, "network.status"]) = some content
                ∧ ¬ WellFormedStatus content))
      ∧ (∀ content, fs (filepathJoin [dir, "network.status"]) = some content →
          WellFormedStatus content →
          ∃ ns, decodeNetworkStatus content = .ok ns
            ∧ ReadNetworkStatus (ReadJSONFile fs) dir
                = (some ns, filepathJoin [dir, "network.status"], none))
      ∧ (∀ content ns, fs (filepathJoin [dir, "network.status"]) = some content →
          decodeNetworkStatus content = .ok ns →
          ReadNetworkStatus (ReadJSONFile fs) dir
            = (some ns, filepathJoin [dir, "network.status"], none)) := by
  have hN : NetworkStatusFile = "network.status" := rfl
  have hfail : ∀ r : String → String → Except GoError (PodmanNetworkStatus × String),
      (ReadNetworkStatus r dir).2.2 ≠ none ↔ ∃ e, r dir "network.status" = .error e := by
    intro r
    unfold ReadNetworkStatus
    rw [hN]
    cases h : r dir "network.status" with
    | error e => simp
    | ok r => simp
  have hread : (∃ e, ReadJSONFile fs dir "network.status" = .error e) ↔
      (fs (filepathJoin [dir, "network.status"]) = none
        ∨ ∃ content, fs (filepathJoin [dir, "network.status"]) = some content
            ∧ ¬ WellFormedStatus content) := by
    unfold ReadJSONFile
    cases hf : fs (filepathJoin [dir, "network.status"]) with
    | none => simp
    | some content =>
      simp only [reduceCtorEq, Option.some.injEq, exists_eq_left', false_or]
      rw [← decodeNetworkStatus_error_iff]
      cases hd : decodeNetworkStatus content with
      | error e => simp
      | ok ns => simp
  have hok : ∀ content ns, fs (filepathJoin [dir, "network.status"]) = some content →
      decodeNetworkStatus content = .ok ns →
      ReadNetworkStatus (ReadJSONFile fs) dir
        = (some ns, filepathJoin [dir, "network.status"], none) := by
    intro content ns hf hd
    simp only [ReadNetworkStatus, ReadJSONFile, hN, hf, hd]
  refine ⟨hfail reader, ?_, ?_, hread, (hfail _).trans hread, ?_, hok⟩
  · intro ns path h
    simp only [ReadNetworkStatus, hN, h]
  · intro e h
    refine ⟨errorfWrap "failed to read network status: " e, ?_, rfl, rfl⟩
    simp only [ReadNetworkStatus, hN, h]
  · intro content hf hw
    obtain ⟨ns, hns⟩ := (decodeNetworkStatus_ok_iff content).2 hw
    exact ⟨ns, hns, hok content ns hf hns⟩

theorem ReadNetworkStatus_result_witness :
    ReadNetworkStatus (ReadJSONFile eth0Files) "/tmp/cp1"
      = (some eth0Status, filepathJoin ["/tmp/cp1", "network.status"], none) :=
  (ReadNetworkStatus_result (ReadJSONFile eth0Files) eth0Files "/tmp/cp1").2.2.2.2.2.2
    eth0Document eth0Status (by decide) decode_eth0Document

end Checkpoint
